import Mathlib

/-!
Shallow embedding of the resumable chunked-file-upload services of this
repository and proofs about them.

The repository contains three independent server implementations plus a
client-side upload driver:

* `UploadPoolService` (src/sample_app/src/file_upload_v3/v3.service.ts),
  modelled below on `PoolState`;
* the second, resumable `ChunkUploadService`
  (src/sample_app/src/file_upload_v2/fileupload_v2.service.ts, lines 284-745),
  with a `locked` flag, modelled on `ChunkState`;
* the first, legacy `ChunkUploadService` (same file, lines 1-279),
  modelled on `ChunkStateA`;
* the client driver chunk splitting (src/unnamed/part_002,
  `splitFileIntoChunks`).

File contents are byte lists; timestamps are naturals (milliseconds).
Maps (JS `Map`, plain objects, and directories) are association lists whose
keys are unique in every reachable state.  Filesystem writes are modelled
as association-list updates; an operation that throws is modelled as
returning an `Except.error` paired with the state as mutated up to the
point of the throw.
-/

/-- A file's contents: a list of bytes. -/
abbrev Bytes := List Nat

/-- The error taxonomy of the services (each constructor corresponds to one
thrown exception message in the source). -/
inductive UploadError where
  /-- "Upload session not found" -/
  | sessionNotFound
  /-- "Invalid chunk index" -/
  | invalidChunkIndex
  /-- "Not all chunks uploaded" / "Incomplete upload. Found …" -/
  | incompleteUpload
  /-- "Upload is being finalized" / "Upload is already being finalized" -/
  | sessionLocked
  /-- "Upload parameters do not match existing session" -/
  | sessionMismatch
  /-- "Failed to merge file: …" (a stream error during the merge) -/
  | mergeFailure
  /-- a `readFileSync` of a missing chunk file during the v3 merge -/
  | chunkReadFailure
  /-- the `EISDIR` error of `fs.unlinkSync` applied to a directory: v3
  `cleanupChunks` ends with `unlinkSync(uploadChunkDir)` on the chunk
  directory itself (v3.service.ts line 153), which always fails -/
  | eisdir
deriving DecidableEq, Repr

/-- The `'disk' | 'memory'` storage method union type. -/
inductive StorageMethod where
  | disk
  | memory
deriving DecidableEq, Repr

/-! ### Association-list helpers

JS `Map.set` / object mutation on an existing key replaces the (single)
entry for that key; `delete` removes it.  `updateEntry` replaces the first
entry with the given key, matching `Map` semantics on the unique-key lists
produced by the services. -/

/-- Replace the value of the first entry with key `k` (no-op if absent). -/
def updateEntry {α β : Type} [DecidableEq α] : List (α × β) → α → β → List (α × β)
  | [], _, _ => []
  | e :: rest, k, v => if e.1 = k then (k, v) :: rest else e :: updateEntry rest k v

/-- Remove every entry with key `k`. -/
def removeKey {α β : Type} [DecidableEq α] (l : List (α × β)) (k : α) : List (α × β) :=
  l.filter (fun e => !decide (e.1 = k))

/-- Overwrite semantics of `fs.writeFileSync` on a keyed store: the key now
maps to `v` and any previous entry for it is gone. -/
def writeKey {α β : Type} [DecidableEq α] (l : List (α × β)) (k : α) (v : β) : List (α × β) :=
  (k, v) :: removeKey l k

theorem lookup_updateEntry_self {α β : Type} [BEq α] [LawfulBEq α] [DecidableEq α]
    (l : List (α × β)) (k : α) (v : β) (h : (l.lookup k).isSome) :
    (updateEntry l k v).lookup k = some v := by
  induction l with
  | nil => simp [List.lookup] at h
  | cons e rest ih =>
    by_cases he : e.1 = k
    · simp [updateEntry, he, List.lookup]
    · have hne : (k == e.1) = false := by
        simp [beq_iff_eq]; exact fun hk => he hk.symm
      simp only [List.lookup, hne] at h
      simp [updateEntry, he, List.lookup, hne, ih h]

theorem lookup_updateEntry_ne {α β : Type} [BEq α] [LawfulBEq α] [DecidableEq α]
    (l : List (α × β)) (k k' : α) (v : β) (h : k' ≠ k) :
    (updateEntry l k v).lookup k' = l.lookup k' := by
  induction l with
  | nil => simp [updateEntry]
  | cons e rest ih =>
    by_cases he : e.1 = k
    · subst he
      have h1 : (k' == e.1) = false := by simp [beq_iff_eq]; exact h
      simp [updateEntry, List.lookup, h1]
    · simp only [updateEntry, he, if_false, List.lookup]
      by_cases hk' : k' = e.1
      · simp [hk']
      · have : (k' == e.1) = false := by simp [beq_iff_eq]; exact hk'
        simp [this, ih]

theorem updateEntry_lookup_eq {α β : Type} [BEq α] [LawfulBEq α] [DecidableEq α]
    (l : List (α × β)) (k : α) (v : β) (h : l.lookup k = some v) :
    updateEntry l k v = l := by
  induction l with
  | nil => rfl
  | cons e rest ih =>
    by_cases he : e.1 = k
    · subst he
      simp only [List.lookup, beq_self_eq_true] at h
      obtain ⟨a, b⟩ := e
      simp_all [updateEntry]
    · have hne : (k == e.1) = false := by
        simp [beq_iff_eq]; exact fun hk => he hk.symm
      simp only [List.lookup, hne] at h
      simp [updateEntry, he, ih h]

theorem updateEntry_updateEntry {α β : Type} [DecidableEq α]
    (l : List (α × β)) (k : α) (v w : β) :
    updateEntry (updateEntry l k v) k w = updateEntry l k w := by
  induction l with
  | nil => rfl
  | cons e rest ih =>
    by_cases he : e.1 = k
    · simp [updateEntry, he]
    · simp [updateEntry, he, ih]

theorem lookup_eq_none_of_forall_ne {α β : Type} [BEq α] [LawfulBEq α] [DecidableEq α]
    (l : List (α × β)) (k : α) (h : ∀ e ∈ l, e.1 ≠ k) :
    l.lookup k = none := by
  induction l with
  | nil => rfl
  | cons e rest ih =>
    have h1 : e.1 ≠ k := h e (by simp)
    have : (k == e.1) = false := by
      simp [beq_iff_eq]; exact fun hk => h1 hk.symm
    simp only [List.lookup, this]
    exact ih fun x hx => h x (by simp [hx])

theorem lookup_removeKey_self {α β : Type} [BEq α] [LawfulBEq α] [DecidableEq α] (l : List (α × β)) (k : α) :
    (removeKey l k).lookup k = none := by
  refine lookup_eq_none_of_forall_ne _ _ fun e he => ?_
  have := List.of_mem_filter he
  simpa using this

theorem lookup_removeKey_ne {α β : Type} [BEq α] [LawfulBEq α] [DecidableEq α]
    (l : List (α × β)) (k k' : α) (h : k' ≠ k) :
    (removeKey l k).lookup k' = l.lookup k' := by
  induction l with
  | nil => rfl
  | cons e rest ih =>
    by_cases he : e.1 = k
    · subst he
      have h1 : (k' == e.1) = false := by simp [beq_iff_eq]; exact h
      simp only [removeKey, List.filter_cons] at ih ⊢
      simp [List.lookup, h1, ih]
    · have hb : (decide (e.1 = k) : Bool) = false := by simpa using he
      simp only [removeKey, List.filter_cons, hb, Bool.not_false, if_pos, List.lookup]
      by_cases hk' : k' = e.1
      · simp [hk']
      · have : (k' == e.1) = false := by simp [beq_iff_eq]; exact hk'
        simp [this, ← ih, removeKey]

theorem lookup_writeKey_self {α β : Type} [BEq α] [LawfulBEq α] [DecidableEq α] (l : List (α × β)) (k : α) (v : β) :
    (writeKey l k v).lookup k = some v := by
  simp [writeKey, List.lookup]

theorem lookup_writeKey_ne {α β : Type} [BEq α] [LawfulBEq α] [DecidableEq α]
    (l : List (α × β)) (k k' : α) (v : β) (h : k' ≠ k) :
    (writeKey l k v).lookup k' = l.lookup k' := by
  have : (k' == k) = false := by simp [beq_iff_eq]; exact h
  simp [writeKey, List.lookup, this, lookup_removeKey_ne l k k' h]

theorem lookup_isSome_iff_exists_entry {α β : Type} [BEq α] [LawfulBEq α] [DecidableEq α]
    (l : List (α × β)) (k : α) :
    (∃ v, l.lookup k = some v) ↔ ∃ e ∈ l, e.1 = k := by
  induction l with
  | nil => simp
  | cons e rest ih =>
    by_cases he : e.1 = k
    · subst he
      simp [List.lookup]
    · have : (k == e.1) = false := by
        simp [beq_iff_eq]; exact fun hk => he hk.symm
      simp only [List.lookup, this, List.mem_cons]
      rw [ih]
      constructor
      · rintro ⟨x, hx, hk⟩; exact ⟨x, Or.inr hx, hk⟩
      · rintro ⟨x, hx | hx, hk⟩
        · exact absurd (hx ▸ hk) he
        · exact ⟨x, hx, hk⟩

/-! ### V3 service: `UploadPoolService` (src/sample_app/src/file_upload_v3/v3.service.ts)

Sessions live in the `uploadSessions` map; chunk payloads are written to
`uploads/chunks/<uploadId>/chunk-<index>` (modelled by the keyed store
`chunkFiles`); the merged artifact goes to `uploads/<fileName>`
(`uploadDirFiles`). -/

/-- The `UploadSession` interface of v3.service.ts (`uploadId` is the map
key; `createdAt` and the optional `fileHash` play no role in any
operation's behaviour and are omitted).  `uploadedChunks` is a JS `Set`,
modelled as a `Finset`. -/
structure UploadSession where
  fileName : String
  fileSize : Nat
  totalChunks : Nat
  uploadedChunks : Finset Nat
  chunkSize : Nat
  lastActivity : Nat
deriving DecidableEq

/-- The mutable state of `UploadPoolService` together with the slice of the
filesystem it touches.  `chunkDirs` is the set of existing
`uploads/chunks/<uploadId>` directories: `initiateUpload` creates them and
nothing ever removes one, because the `unlinkSync` that should is applied
to the directory and throws `EISDIR`. -/
structure PoolState where
  uploadSessions : List (String × UploadSession)
  chunkFiles : List ((String × Nat) × Bytes)
  uploadDirFiles : List (String × Bytes)
  chunkDirs : List String
deriving DecidableEq

/-- `sessionTimeout = 24 * 60 * 60 * 1000` (24 hours, in ms). -/
def sessionTimeout : Nat := 24 * 60 * 60 * 1000

/-- `initiateUpload`: allocate a fresh session and create its chunk
directory (`mkdirSync` when it does not exist).  `chunkSize` is
`Math.ceil(fileSize / totalChunks)`. -/
def initiateUpload (st : PoolState) (uploadId fileName : String) (fileSize totalChunks : Nat)
    (now : Nat) : PoolState :=
  let session : UploadSession :=
    { fileName := fileName
      fileSize := fileSize
      totalChunks := totalChunks
      uploadedChunks := ∅
      chunkSize := (fileSize + totalChunks - 1) / totalChunks
      lastActivity := now }
  { st with
    uploadSessions := writeKey st.uploadSessions uploadId session
    chunkDirs := if uploadId ∈ st.chunkDirs then st.chunkDirs else uploadId :: st.chunkDirs }

/-- `uploadChunk(uploadId, chunkIndex, chunkBuffer)`: reject an unknown
session or an index outside `[0, totalChunks)`, otherwise write the chunk
file and add the index to `uploadedChunks`.  The index arrives as a JS
number, modelled as `Int` so the `chunkIndex < 0` test is meaningful. -/
def uploadChunk (st : PoolState) (uploadId : String) (chunkIndex : Int) (chunkBuffer : Bytes)
    (now : Nat) : Except UploadError Unit × PoolState :=
  match st.uploadSessions.lookup uploadId with
  | none => (.error .sessionNotFound, st)
  | some session =>
    if chunkIndex < 0 ∨ (session.totalChunks : Int) ≤ chunkIndex then
      (.error .invalidChunkIndex, st)
    else
      let k := chunkIndex.toNat
      (.ok (),
        { st with
          chunkFiles := writeKey st.chunkFiles (uploadId, k) chunkBuffer
          uploadSessions := updateEntry st.uploadSessions uploadId
            { session with
              uploadedChunks := insert k session.uploadedChunks
              lastActivity := now } })

/-- The response of v3 `getUploadStatus` (the sorted `uploadedChunks`
array is modelled by the set itself; `progress` is determined by
`uploadedChunks` and `totalChunks` and is omitted). -/
structure UploadStatus where
  fileName : String
  fileSize : Nat
  totalChunks : Nat
  uploadedChunks : Finset Nat
  isComplete : Bool
deriving DecidableEq

/-- `getUploadStatus(uploadId)`: fails on an unknown session; `isComplete`
is `uploadedChunks.size === totalChunks`. -/
def getUploadStatus (st : PoolState) (uploadId : String) : Except UploadError UploadStatus :=
  match st.uploadSessions.lookup uploadId with
  | none => .error .sessionNotFound
  | some session =>
    .ok
      { fileName := session.fileName
        fileSize := session.fileSize
        totalChunks := session.totalChunks
        uploadedChunks := session.uploadedChunks
        isComplete := decide (session.uploadedChunks.card = session.totalChunks) }

/-- `cleanupChunks(uploadId)`: if the session's chunk directory exists,
`unlinkSync` every chunk file in it — and then `unlinkSync` the directory
itself (v3.service.ts line 153), which always throws `EISDIR` because
`unlink` cannot remove a directory, leaving the directory in place.  If
the directory does not exist, the call is a no-op. -/
def cleanupChunks (st : PoolState) (uploadId : String) :
    Except UploadError Unit × PoolState :=
  if uploadId ∈ st.chunkDirs then
    (.error .eisdir,
      { st with chunkFiles := st.chunkFiles.filter (fun e => !decide (e.1.1 = uploadId)) })
  else (.ok (), st)

theorem cleanupChunks_mem (st : PoolState) (uploadId : String) (h : uploadId ∈ st.chunkDirs) :
    cleanupChunks st uploadId =
      (.error .eisdir,
        { st with chunkFiles := st.chunkFiles.filter (fun e => !decide (e.1.1 = uploadId)) }) := by
  simp [cleanupChunks, h]

theorem cleanupChunks_not_mem (st : PoolState) (uploadId : String)
    (h : uploadId ∉ st.chunkDirs) :
    cleanupChunks st uploadId = (.ok (), st) := by
  simp [cleanupChunks, h]

/-- `readFileSync` of chunks `0 .. n-1` in ascending order, appending their
bytes; `none` if some chunk file is missing (the stream write would then
abort with a throw — unreachable from well-formed states, where every
index in `uploadedChunks` has a stored chunk). -/
def readChunksInOrder (st : PoolState) (uploadId : String) (n : Nat) : Option Bytes :=
  (List.range n).foldl
    (fun acc i => acc.bind fun bs => (st.chunkFiles.lookup (uploadId, i)).map (bs ++ ·))
    (some [])

/-- `completeUpload(uploadId)`: fail on an unknown session; fail with
`IncompleteUpload` ("Not all chunks uploaded") when
`uploadedChunks.size !== totalChunks`, leaving all state untouched;
otherwise concatenate chunks `0 .. totalChunks-1` in index order into
`uploads/<fileName>` and then call `cleanupChunks` — which throws
`EISDIR` whenever the session's chunk directory exists (every session
created by `initiateUpload`), so the artifact is written but the
`uploadSessions.delete` and the `return finalFilePath` are never
reached. -/
def completeUpload (st : PoolState) (uploadId : String) :
    Except UploadError String × PoolState :=
  match st.uploadSessions.lookup uploadId with
  | none => (.error .sessionNotFound, st)
  | some session =>
    if session.uploadedChunks.card ≠ session.totalChunks then
      (.error .incompleteUpload, st)
    else
      match readChunksInOrder st uploadId session.totalChunks with
      | none => (.error .chunkReadFailure, st)
      | some merged =>
        let st1 := { st with uploadDirFiles := writeKey st.uploadDirFiles session.fileName merged }
        match cleanupChunks st1 uploadId with
        | (.error err, st2) => (.error err, st2)
        | (.ok _, st2) =>
          (.ok session.fileName,
            { st2 with uploadSessions := removeKey st2.uploadSessions uploadId })

/-- `cancelUpload(uploadId)`: fail with `SessionNotFound` on an unknown
id; otherwise call `cleanupChunks` and, if it returns, delete the
session's metadata.  Since `cleanupChunks` throws `EISDIR` whenever the
chunk directory exists, a real cancel deletes the chunk files but leaves
the metadata in place and propagates the error. -/
def cancelUpload (st : PoolState) (uploadId : String) :
    Except UploadError Unit × PoolState :=
  match st.uploadSessions.lookup uploadId with
  | none => (.error .sessionNotFound, st)
  | some _ =>
    match cleanupChunks st uploadId with
    | (.error err, st1) => (.error err, st1)
    | (.ok _, st1) =>
      (.ok (), { st1 with uploadSessions := removeKey st1.uploadSessions uploadId })

/-- Whether a v3 session has been inactive longer than `sessionTimeout` at
time `now` (`now - session.lastActivity.getTime() > this.sessionTimeout`). -/
def expiredSession (now : Nat) (session : UploadSession) : Bool :=
  decide (sessionTimeout < now - session.lastActivity)

/-- The loop body of one `startCleanupInterval` run, over a snapshot of
the session entries: each expired session is to have its chunks cleaned
up and its metadata deleted — but `cleanupChunks` throws `EISDIR`
whenever the session's chunk directory exists, which aborts the whole
callback before the `uploadSessions.delete` of that session and before
any later entry is visited. -/
def cleanupLoop (now : Nat) : List (String × UploadSession) → PoolState →
    Except UploadError Unit × PoolState
  | [], st => (.ok (), st)
  | e :: rest, st =>
    if expiredSession now e.2 then
      match cleanupChunks st e.1 with
      | (.error err, st1) => (.error err, st1)
      | (.ok _, st1) =>
        cleanupLoop now rest { st1 with uploadSessions := removeKey st1.uploadSessions e.1 }
    else cleanupLoop now rest st

/-- One run of the v3 cleanup-interval callback. -/
def cleanupExpiredSessions (st : PoolState) (now : Nat) :
    Except UploadError Unit × PoolState :=
  cleanupLoop now st.uploadSessions st

/-! ### V2 resumable service: the second `ChunkUploadService`
(src/sample_app/src/file_upload_v2/fileupload_v2.service.ts, lines 284-745)

Sessions live in the `activeUploads` map and carry a `locked` flag; chunk
payloads are the files `uploads/temp/<fileId>/<index>.chunk`
(`chunkFiles`); merged artifacts go to `uploads/<fileName>`
(`finalFiles`). -/

/-- The `ActiveUpload` interface (fileupload_v2.service.ts lines 292-300). -/
structure ActiveUpload where
  fileName : String
  fileSize : Nat
  totalChunks : Nat
  uploadedChunks : List Nat
  storageMethod : StorageMethod
  lastUpdated : Nat
  locked : Bool
deriving DecidableEq

/-- The service state plus the slice of the filesystem it touches. -/
structure ChunkState where
  activeUploads : List (String × ActiveUpload)
  chunkFiles : List ((String × Nat) × Bytes)
  finalFiles : List (String × Bytes)
deriving DecidableEq

/-- `abandonedThreshold = 24 * 60 * 60 * 1000` (24 hours, in ms). -/
def abandonedThreshold : Nat := 24 * 60 * 60 * 1000

/-- `Array.from(new Set(l)).sort((a, b) => a - b)`: the distinct elements
of `l` in ascending order. -/
def sortedDedup (l : List Nat) : List Nat :=
  (l.dedup).insertionSort (· ≤ ·)

/-- The indices present in the session's chunk directory
(`readdir` + `parseInt(f.split('.')[0])`): each stored chunk file
`<index>.chunk` contributes its index, and a directory lists each name
once.  Sorted ascending, as every consumer of the listing sorts it. -/
def chunkDirListing (files : List ((String × Nat) × Bytes)) (fileId : String) : List Nat :=
  sortedDedup (files.filterMap fun c => if c.1.1 = fileId then some c.1.2 else none)

/-- `startChunkUpload`: register a fresh session with no uploaded chunks
and `locked: false`. -/
def startChunkUpload (st : ChunkState) (fileId fileName : String) (fileSize totalChunks : Nat)
    (storageMethod : StorageMethod) (now : Nat) : ChunkState :=
  let upload : ActiveUpload :=
    { fileName := fileName
      fileSize := fileSize
      totalChunks := totalChunks
      uploadedChunks := []
      storageMethod := storageMethod
      lastUpdated := now
      locked := false }
  { st with activeUploads := writeKey st.activeUploads fileId upload }

/-- The `UploadStatusResponse` union: `{ exists: false }` or the populated
record. -/
inductive StatusResponse where
  | absent
  | present (fileName : String) (fileSize : Nat) (totalChunks : Nat)
      (uploadedChunks : List Nat) (storageMethod : StorageMethod) (lastUpdated : Nat)
deriving DecidableEq

/-- `getUploadStatus(fileId)`: `{ exists: false }` for an unknown id;
otherwise the metadata together with `uploadedChunks` reconciled against
the chunk directory:
`Array.from(new Set([...upload.uploadedChunks, ...existingChunks])).sort()`. -/
def getUploadStatusV2 (st : ChunkState) (fileId : String) : StatusResponse :=
  match st.activeUploads.lookup fileId with
  | none => .absent
  | some upload =>
    .present upload.fileName upload.fileSize upload.totalChunks
      (sortedDedup (upload.uploadedChunks ++ chunkDirListing st.chunkFiles fileId))
      upload.storageMethod upload.lastUpdated

/-- The `uploadedChunks` array of a status response (`[]` when absent). -/
def StatusResponse.chunks : StatusResponse → List Nat
  | .absent => []
  | .present _ _ _ uploadedChunks _ _ => uploadedChunks

/-- `resumeChunkUpload(fileName, fileSize, totalChunks, fileId,
storageMethod)`: unknown id fails; any difference in the four declared
fields fails with `SessionMismatch` before any mutation; otherwise
`lastUpdated` is refreshed and the reconciled `uploadedChunks` of
`getUploadStatus` is returned. -/
def resumeChunkUpload (st : ChunkState) (fileName : String) (fileSize totalChunks : Nat)
    (fileId : String) (storageMethod : StorageMethod) (now : Nat) :
    Except UploadError (List Nat) × ChunkState :=
  match st.activeUploads.lookup fileId with
  | none => (.error .sessionNotFound, st)
  | some upload =>
    if upload.fileName ≠ fileName ∨ upload.fileSize ≠ fileSize ∨
        upload.totalChunks ≠ totalChunks ∨ upload.storageMethod ≠ storageMethod then
      (.error .sessionMismatch, st)
    else
      let touched := updateEntry st.activeUploads fileId { upload with lastUpdated := now }
      let st1 := { st with activeUploads := touched }
      (.ok (getUploadStatusV2 st1 fileId).chunks, st1)

/-- `uploadChunk(fileId, chunkIndex, totalChunks, …)` of the resumable
service: unknown session fails; a locked session fails with
`SessionLocked`; an index outside `[0, totalChunks)` — `totalChunks`
being the caller-supplied argument — fails with `InvalidChunkIndex`; a
chunk whose file already exists is skipped (`.ok true`) with no state
change; otherwise the chunk file is written and `uploadedChunks` becomes
the sorted set with the new index added.  All failures happen before any
mutation. -/
def uploadChunkV2 (st : ChunkState) (fileId : String) (chunkIndex : Int) (totalChunks : Nat)
    (chunkData : Bytes) (now : Nat) : Except UploadError Bool × ChunkState :=
  match st.activeUploads.lookup fileId with
  | none => (.error .sessionNotFound, st)
  | some upload =>
    if upload.locked then (.error .sessionLocked, st)
    else if chunkIndex < 0 ∨ (totalChunks : Int) ≤ chunkIndex then
      (.error .invalidChunkIndex, st)
    else
      let k := chunkIndex.toNat
      if (st.chunkFiles.lookup (fileId, k)).isSome then (.ok true, st)
      else
        (.ok false,
          { st with
            chunkFiles := writeKey st.chunkFiles (fileId, k) chunkData
            activeUploads := updateEntry st.activeUploads fileId
              { upload with
                uploadedChunks := sortedDedup (upload.uploadedChunks ++ [k])
                lastUpdated := now } })

/-- The chunk payloads of a session in ascending index order (the
`sortedChunks` read by the merge; every listed index has a stored file). -/
def sortedChunkData (st : ChunkState) (fileId : String) : List Bytes :=
  (chunkDirListing st.chunkFiles fileId).filterMap fun i => st.chunkFiles.lookup (fileId, i)

/-- `mergeChunksStreaming`, processing chunks in order starting at
position `i`: each successfully consumed chunk is appended to the output
stream and its file deleted.  `failAt = some j` injects an I/O failure
while streaming the chunk at position `j` (read error / unlink error);
the result is `(bytes written to the destination, number of chunks
consumed and deleted, success flag)`. -/
def mergeRun (failAt : Option Nat) : Nat → List Bytes → Bytes × Nat × Bool
  | _, [] => ([], 0, true)
  | i, b :: rest =>
    if failAt = some i then ([], 0, false)
    else
      let r := mergeRun failAt (i + 1) rest
      (b ++ r.1, r.2.1 + 1, r.2.2)

/-- `completeChunkUpload(fileId, fileName, totalChunks, …)`: unknown
session fails; a locked session fails with `SessionLocked`; otherwise the
session is locked and the chunk-directory listing is compared with the
caller-supplied `totalChunks` — on mismatch the `Incomplete upload` error
is thrown and the catch block unlocks the session again.  When the counts
match, `mergeChunksStreaming` writes the chunks in ascending index order
directly to `uploads/<fileName>` (`fs.createWriteStream(finalPath)`),
deleting each chunk after it is consumed.  On success the chunk directory
and the session are removed; on a stream failure the catch block unlocks
the session and rethrows, leaving the bytes written so far at the final
path and the consumed chunk files deleted. -/
def completeChunkUpload (st : ChunkState) (fileId fileName : String) (totalChunks : Nat)
    (failAt : Option Nat) : Except UploadError String × ChunkState :=
  match st.activeUploads.lookup fileId with
  | none => (.error .sessionNotFound, st)
  | some upload =>
    if upload.locked then (.error .sessionLocked, st)
    else
      let lockedUploads := updateEntry st.activeUploads fileId { upload with locked := true }
      let unlockedUploads := updateEntry lockedUploads fileId { upload with locked := false }
      let listing := chunkDirListing st.chunkFiles fileId
      if listing.length ≠ totalChunks then
        (.error .incompleteUpload, { st with activeUploads := unlockedUploads })
      else
        let r := mergeRun failAt 0 (sortedChunkData st fileId)
        if r.2.2 then
          (.ok fileName,
            { activeUploads := removeKey st.activeUploads fileId
              chunkFiles := st.chunkFiles.filter (fun e => !decide (e.1.1 = fileId))
              finalFiles := writeKey st.finalFiles fileName r.1 })
        else
          (.error .mergeFailure,
            { activeUploads := unlockedUploads
              chunkFiles := st.chunkFiles.filter
                (fun e => !decide (e.1.1 = fileId ∧ e.1.2 ∈ listing.take r.2.1))
              finalFiles := writeKey st.finalFiles fileName r.1 })

/-- Whether a v2 session counts as abandoned at time `now`
(`now.getTime() - lastUpdated.getTime() > abandonedThreshold`). -/
def abandonedUpload (now : Nat) (upload : ActiveUpload) : Bool :=
  decide (abandonedThreshold < now - upload.lastUpdated)

/-- One run of `cleanupAbandonedUploads`: locked sessions are skipped
regardless of age; each other session older than the threshold has its
chunk directory removed and its metadata deleted.  The loop judges each
entry independently, which is the filter below; chunk files of ids not in
`activeUploads` are not touched. -/
def cleanupAbandonedUploads (st : ChunkState) (now : Nat) : ChunkState :=
  { activeUploads := st.activeUploads.filter
      (fun e => e.2.locked || !abandonedUpload now e.2)
    chunkFiles := st.chunkFiles.filter (fun c =>
      match st.activeUploads.lookup c.1.1 with
      | some upload => upload.locked || !abandonedUpload now upload
      | none => true)
    finalFiles := st.finalFiles }

/-! ### V2 legacy service: the first `ChunkUploadService`
(src/sample_app/src/file_upload_v2/fileupload_v2.service.ts, lines 1-279)

This earlier variant keeps `uploadedChunks` as a plain array that is
`push`ed on every accepted chunk, and its `uploadChunk` performs no
bounds check on the chunk index at all.  Indices are kept as `Int`: the
chunk file name is built directly from the raw value. -/

/-- An `activeUploads` record of the legacy service (no `locked` flag). -/
structure ActiveUploadA where
  fileName : String
  fileSize : Nat
  totalChunks : Nat
  uploadedChunks : List Int
  storageMethod : StorageMethod
  lastUpdated : Nat
deriving DecidableEq

/-- The legacy service state. -/
structure ChunkStateA where
  activeUploads : List (String × ActiveUploadA)
  chunkFiles : List ((String × Int) × Bytes)
  finalFiles : List (String × Bytes)
deriving DecidableEq

/-- Legacy `uploadChunk(fileId, chunkIndex, totalChunks, fileName, chunk,
storageMethod)` (lines 134-173): the only failure is an unknown session;
the chunk file is then written unconditionally — no index validation —
and the index is appended to `uploadedChunks` by
`upload.uploadedChunks.push(chunkIndex)`, duplicates and all. -/
def uploadChunkA (st : ChunkStateA) (fileId : String) (chunkIndex : Int) (chunkData : Bytes)
    (now : Nat) : Except UploadError Unit × ChunkStateA :=
  match st.activeUploads.lookup fileId with
  | none => (.error .sessionNotFound, st)
  | some upload =>
    (.ok (),
      { st with
        chunkFiles := writeKey st.chunkFiles (fileId, chunkIndex) chunkData
        activeUploads := updateEntry st.activeUploads fileId
          { upload with
            uploadedChunks := upload.uploadedChunks ++ [chunkIndex]
            lastUpdated := now } })

/-! ### Client upload driver: `splitFileIntoChunks` (src/unnamed/part_002,
lines 53-72)

`while (offset < file.size) { size = min(chunkSize, file.size - offset);
blob = file.slice(offset, offset + size); push; offset += size }`.
The recursion below consumes `chunkSize` bytes per step.  On
`chunkSize = 0` the source loop never terminates; the model returns `[]`
there, a branch unreachable under the `chunkSize > 0` precondition of
every statement about it. -/

/-- Split a file into consecutive chunks of `chunkSize` bytes (the last
chunk may be shorter). -/
def splitFileIntoChunks (chunkSize : Nat) (file : Bytes) : List Bytes :=
  if chunkSize = 0 ∨ file.isEmpty then []
  else file.take chunkSize :: splitFileIntoChunks chunkSize (file.drop chunkSize)
termination_by file.length
decreasing_by
  rename_i h
  push_neg at h
  have h0 : 0 < chunkSize := Nat.pos_of_ne_zero h.1
  have h1 : 0 < file.length := by
    cases file with
    | nil => simp at h
    | cons a l => simp
  simp only [List.length_drop]
  omega

/-- `Math.ceil(fileSize / chunkSize)`: the chunk count computed by the
upload initiators (src/unnamed/part_006 line 26, src/unnamed/part_001
line 135). -/
def totalChunksFor (fileSize chunkSize : Nat) : Nat :=
  (fileSize + chunkSize - 1) / chunkSize

/-! ### Lemmas about `splitFileIntoChunks` -/

theorem splitFileIntoChunks_nil (chunkSize : Nat) : splitFileIntoChunks chunkSize [] = [] := by
  rw [splitFileIntoChunks]
  simp

theorem splitFileIntoChunks_cons (chunkSize : Nat) (file : Bytes)
    (h : chunkSize ≠ 0) (hf : file ≠ []) :
    splitFileIntoChunks chunkSize file =
      file.take chunkSize :: splitFileIntoChunks chunkSize (file.drop chunkSize) := by
  rw [splitFileIntoChunks]
  simp [h, hf]

theorem flatten_splitFileIntoChunks_aux (chunkSize : Nat) (h : chunkSize ≠ 0) :
    ∀ (n : Nat) (file : Bytes), file.length ≤ n →
      (splitFileIntoChunks chunkSize file).flatten = file := by
  intro n
  induction n with
  | zero =>
    intro file hf
    have : file = [] := List.eq_nil_of_length_eq_zero (Nat.le_zero.mp hf)
    subst this
    simp [splitFileIntoChunks_nil]
  | succ n ih =>
    intro file hf
    by_cases hfe : file = []
    · subst hfe
      simp [splitFileIntoChunks_nil]
    · rw [splitFileIntoChunks_cons chunkSize file h hfe]
      have hlen : (file.drop chunkSize).length ≤ n := by
        have h1 : 0 < file.length := List.length_pos.mpr hfe
        have h0 : 0 < chunkSize := Nat.pos_of_ne_zero h
        simp only [List.length_drop]
        omega
      simp [ih (file.drop chunkSize) hlen]

theorem length_splitFileIntoChunks_aux (chunkSize : Nat) (h : chunkSize ≠ 0) :
    ∀ (n : Nat) (file : Bytes), file.length ≤ n →
      (splitFileIntoChunks chunkSize file).length = (file.length + chunkSize - 1) / chunkSize := by
  intro n
  induction n with
  | zero =>
    intro file hf
    have : file = [] := List.eq_nil_of_length_eq_zero (Nat.le_zero.mp hf)
    subst this
    have h0 : 0 < chunkSize := Nat.pos_of_ne_zero h
    simp [splitFileIntoChunks_nil, Nat.div_eq_of_lt (by omega : chunkSize - 1 < chunkSize)]
  | succ n ih =>
    intro file hf
    by_cases hfe : file = []
    · subst hfe
      have h0 : 0 < chunkSize := Nat.pos_of_ne_zero h
      simp [splitFileIntoChunks_nil, Nat.div_eq_of_lt (by omega : chunkSize - 1 < chunkSize)]
    · rw [splitFileIntoChunks_cons chunkSize file h hfe]
      have h0 : 0 < chunkSize := Nat.pos_of_ne_zero h
      have h1 : 0 < file.length := List.length_pos.mpr hfe
      have hlen : (file.drop chunkSize).length ≤ n := by
        simp only [List.length_drop]; omega
      have key : ∀ m : Nat, 0 < m →
          (m + chunkSize - 1) / chunkSize = (m - 1) / chunkSize + 1 := by
        intro m hm
        rw [show m + chunkSize - 1 = (m - 1) + chunkSize by omega, Nat.add_div_right _ h0]
      rw [List.length_cons, ih (file.drop chunkSize) hlen]
      simp only [List.length_drop]
      rw [key file.length h1]
      by_cases hc : file.length ≤ chunkSize
      · rw [show file.length - chunkSize = 0 by omega]
        rw [show (0 : Nat) + chunkSize - 1 = chunkSize - 1 by omega]
        rw [Nat.div_eq_of_lt (by omega : chunkSize - 1 < chunkSize),
          Nat.div_eq_of_lt (by omega : file.length - 1 < chunkSize)]
      · rw [key (file.length - chunkSize) (by omega)]
        rw [show file.length - 1 = (file.length - chunkSize - 1) + chunkSize by omega,
          Nat.add_div_right _ h0]

theorem getElem_splitFileIntoChunks_aux (chunkSize : Nat) (h : chunkSize ≠ 0) :
    ∀ (n : Nat) (file : Bytes) (k : Nat), file.length ≤ n → k * chunkSize < file.length →
      (splitFileIntoChunks chunkSize file)[k]? =
        some ((file.drop (k * chunkSize)).take chunkSize) := by
  intro n
  induction n with
  | zero =>
    intro file k hf hk
    omega
  | succ n ih =>
    intro file k hf hk
    have hfe : file ≠ [] := by
      intro hc
      subst hc
      simp at hk
    rw [splitFileIntoChunks_cons chunkSize file h hfe]
    match k with
    | 0 => simp
    | k + 1 =>
      have h0 : 0 < chunkSize := Nat.pos_of_ne_zero h
      have hmul : (k + 1) * chunkSize = k * chunkSize + chunkSize := by ring
      have hlen : (file.drop chunkSize).length ≤ n := by
        have h1 : 0 < file.length := List.length_pos.mpr hfe
        simp only [List.length_drop]; omega
      have hk2 : k * chunkSize < (file.drop chunkSize).length := by
        simp only [List.length_drop]; omega
      have := ih (file.drop chunkSize) k hlen hk2
      rw [List.getElem?_cons_succ, this, List.drop_drop]
      rw [show chunkSize + k * chunkSize = (k + 1) * chunkSize by ring]

/-! ### Lemmas about `sortedDedup`, `chunkDirListing` and `writeKey` -/

theorem mem_sortedDedup (l : List Nat) (i : Nat) : i ∈ sortedDedup l ↔ i ∈ l := by
  unfold sortedDedup
  rw [(List.perm_insertionSort (· ≤ ·) l.dedup).mem_iff, List.mem_dedup]

theorem sorted_sortedDedup (l : List Nat) : (sortedDedup l).Sorted (· ≤ ·) :=
  List.sorted_insertionSort (· ≤ ·) l.dedup

theorem nodup_sortedDedup (l : List Nat) : (sortedDedup l).Nodup :=
  ((List.perm_insertionSort (· ≤ ·) l.dedup).nodup_iff).mpr (List.nodup_dedup l)

theorem mem_chunkDirListing (files : List ((String × Nat) × Bytes)) (fileId : String) (i : Nat) :
    i ∈ chunkDirListing files fileId ↔ (files.lookup (fileId, i)).isSome := by
  unfold chunkDirListing
  rw [mem_sortedDedup, List.mem_filterMap]
  rw [Option.isSome_iff_exists]
  rw [lookup_isSome_iff_exists_entry]
  constructor
  · rintro ⟨c, hc, he⟩
    by_cases h1 : c.1.1 = fileId
    · simp only [h1, if_pos] at he
      exact ⟨c, hc, by rw [Prod.ext_iff]; exact ⟨h1, by simpa using he⟩⟩
    · simp [h1] at he
  · rintro ⟨c, hc, he⟩
    refine ⟨c, hc, ?_⟩
    rw [Prod.ext_iff] at he
    simp [he.1, he.2]

theorem removeKey_idem {α β : Type} [DecidableEq α] (l : List (α × β)) (k : α) :
    removeKey (removeKey l k) k = removeKey l k := by
  unfold removeKey
  rw [List.filter_filter]
  simp

theorem writeKey_idem {α β : Type} [DecidableEq α] (l : List (α × β)) (k : α) (v : β) :
    writeKey (writeKey l k v) k v = writeKey l k v := by
  unfold writeKey
  simp only [removeKey, List.filter_cons, decide_eq_true_eq]
  rw [if_neg (by simp)]
  rw [show (List.filter (fun e => !decide (e.1 = k)) (List.filter (fun e => !decide (e.1 = k)) l)) = removeKey (removeKey l k) k from rfl]
  rw [removeKey_idem]
  rfl

/-- C5: for every source file and every `chunkSize > 0`, the client driver
partitions the file into exactly `Math.ceil(fileSize / chunkSize)` chunks;
chunk `k` is the byte range `[k * chunkSize, min((k+1) * chunkSize,
fileSize))`; every chunk but possibly the last has exactly `chunkSize`
bytes; and the concatenation of the chunks in index order is the original
file. -/
theorem c5_split_partitions_file (file : Bytes) (chunkSize : Nat)
    (hcs : 0 < chunkSize) (hfile : 0 < file.length) :
    (splitFileIntoChunks chunkSize file).length = totalChunksFor file.length chunkSize ∧
    (∀ k, k * chunkSize < file.length →
      (splitFileIntoChunks chunkSize file)[k]? =
        some ((file.drop (k * chunkSize)).take chunkSize)) ∧
    (∀ k, k + 1 < (splitFileIntoChunks chunkSize file).length →
      ((file.drop (k * chunkSize)).take chunkSize).length = chunkSize) ∧
    (splitFileIntoChunks chunkSize file).flatten = file := by
  have h : chunkSize ≠ 0 := Nat.pos_iff_ne_zero.mp hcs
  have hlen := length_splitFileIntoChunks_aux chunkSize h file.length file (Nat.le_refl _)
  refine ⟨hlen, ?_, ?_, ?_⟩
  · intro k hk
    exact getElem_splitFileIntoChunks_aux chunkSize h file.length file k (Nat.le_refl _) hk
  · intro k hk
    rw [hlen] at hk
    have h2 : (k + 2) * chunkSize ≤ file.length + chunkSize - 1 := by
      rw [← Nat.le_div_iff_mul_le hcs]
      omega
    have h3 : k * chunkSize + 2 * chunkSize = (k + 2) * chunkSize := by ring
    simp only [List.length_take, List.length_drop]
    omega
  · exact flatten_splitFileIntoChunks_aux chunkSize h file.length file (Nat.le_refl _)

/-- Witness for C5 at `file = [1,2,3,4,5]`, `chunkSize = 2`. -/
theorem c5_split_partitions_file_witness :
    0 < 2 ∧ 0 < ([1, 2, 3, 4, 5] : Bytes).length ∧
    ((splitFileIntoChunks 2 [1, 2, 3, 4, 5]).length = totalChunksFor 5 2 ∧
    (∀ k, k * 2 < ([1, 2, 3, 4, 5] : Bytes).length →
      (splitFileIntoChunks 2 [1, 2, 3, 4, 5])[k]? =
        some ((([1, 2, 3, 4, 5] : Bytes).drop (k * 2)).take 2)) ∧
    (∀ k, k + 1 < (splitFileIntoChunks 2 [1, 2, 3, 4, 5]).length →
      ((([1, 2, 3, 4, 5] : Bytes).drop (k * 2)).take 2).length = 2) ∧
    (splitFileIntoChunks 2 [1, 2, 3, 4, 5]).flatten = [1, 2, 3, 4, 5]) :=
  ⟨by decide, by decide, c5_split_partitions_file [1, 2, 3, 4, 5] 2 (by decide) (by decide)⟩

/-! ### Concrete states used by the witnesses -/

/-- A v3 session with both of its two chunks received. -/
def wSession : UploadSession :=
  { fileName := "a.bin", fileSize := 4, totalChunks := 2, uploadedChunks := {0, 1},
    chunkSize := 2, lastActivity := 100 }

/-- A v3 pool holding `wSession` under id `"s"` with both chunk files stored. -/
def wPool : PoolState :=
  { uploadSessions := [("s", wSession)],
    chunkFiles := [(("s", 0), [10, 11]), (("s", 1), [12, 13])],
    uploadDirFiles := [],
    chunkDirs := ["s"] }

/-- An unlocked v2 session that has received chunks 0 and 1. -/
def wUpload : ActiveUpload :=
  { fileName := "f.bin", fileSize := 3, totalChunks := 2, uploadedChunks := [0, 1],
    storageMethod := .disk, lastUpdated := 100, locked := false }

/-- `wUpload` with the `locked` flag set (a finalize in progress). -/
def wLockedUpload : ActiveUpload :=
  { fileName := "f.bin", fileSize := 3, totalChunks := 2, uploadedChunks := [0, 1],
    storageMethod := .disk, lastUpdated := 100, locked := true }

/-- A v2 state holding `wUpload` under id `"s"` with both chunk files stored. -/
def wChunkSt : ChunkState :=
  { activeUploads := [("s", wUpload)],
    chunkFiles := [(("s", 1), [2]), (("s", 0), [1])],
    finalFiles := [] }

/-- A v2 state holding the locked `wLockedUpload` under id `"s"`. -/
def wLockedSt : ChunkState :=
  { activeUploads := [("s", wLockedUpload)],
    chunkFiles := [(("s", 1), [2]), (("s", 0), [1])],
    finalFiles := [] }

/-- C6: on a session whose `locked` flag is true, `uploadChunk` of the
resumable v2 service fails with `SessionLocked` and `completeChunkUpload`
also fails with `SessionLocked`, and neither rejected call changes any
state (session metadata, chunk files or final files). -/
theorem c6_locked_session_rejects_writes_and_second_finalize
    (st : ChunkState) (fileId : String) (u : ActiveUpload)
    (hu : st.activeUploads.lookup fileId = some u) (hl : u.locked = true) :
    (∀ idx tc b now, uploadChunkV2 st fileId idx tc b now = (.error .sessionLocked, st)) ∧
    (∀ fn tc failAt, completeChunkUpload st fileId fn tc failAt = (.error .sessionLocked, st)) := by
  constructor
  · intro idx tc b now
    simp [uploadChunkV2, hu, hl]
  · intro fn tc failAt
    simp [completeChunkUpload, hu, hl]

/-- Witness for C6 on the concrete locked state `wLockedSt`. -/
theorem c6_locked_session_rejects_writes_and_second_finalize_witness :
    uploadChunkV2 wLockedSt "s" 0 2 [9] 5 = (.error .sessionLocked, wLockedSt) ∧
    completeChunkUpload wLockedSt "s" "f.bin" 2 none = (.error .sessionLocked, wLockedSt) := by
  obtain ⟨h1, h2⟩ :=
    c6_locked_session_rejects_writes_and_second_finalize wLockedSt "s" wLockedUpload rfl rfl
  exact ⟨h1 0 2 [9] 5, h2 "f.bin" 2 none⟩

/-- C10 counterexample: on `wPool` (a registered session whose chunk
directory exists, as for every session created by `initiateUpload`)
`cancelUpload` does not acknowledge and does not delete the metadata:
`cleanupChunks` throws `EISDIR` on `unlinkSync(uploadChunkDir)` before
`uploadSessions.delete` runs, so the session survives and a subsequent
`getUploadStatus` still succeeds — contradicting the claim that Cancel
deletes the metadata and that GetStatus then fails with
`SessionNotFound`. -/
theorem c10_counterexample_cancel_throws_and_keeps_metadata :
    (cancelUpload wPool "s").1 = .error .eisdir ∧
    (cancelUpload wPool "s").2.uploadSessions.lookup "s" = some wSession ∧
    ∃ r, getUploadStatus (cancelUpload wPool "s").2 "s" = .ok r :=
  ⟨rfl, rfl, ⟨_, rfl⟩⟩

/-- C10 (amended): v3 `cancelUpload` on an unknown id fails with
`SessionNotFound` and changes nothing.  On a registered session whose
chunk directory exists — every session created by `initiateUpload` — it
deletes all of the session's stored chunk files but then throws `EISDIR`
(`unlinkSync` on the chunk directory) before reaching
`uploadSessions.delete`, so the session's metadata survives unchanged and
a subsequent `getUploadStatus` on the same id still succeeds. -/
theorem c10_cancel_unknown_fails_known_throws_before_metadata_delete
    (st : PoolState) (uploadId : String) :
    (st.uploadSessions.lookup uploadId = none →
      cancelUpload st uploadId = (.error .sessionNotFound, st)) ∧
    (∀ s, st.uploadSessions.lookup uploadId = some s → uploadId ∈ st.chunkDirs →
      ∃ st1, cancelUpload st uploadId = (.error .eisdir, st1) ∧
        (∀ i, st1.chunkFiles.lookup (uploadId, i) = none) ∧
        st1.uploadSessions = st.uploadSessions ∧
        st1.uploadDirFiles = st.uploadDirFiles ∧
        getUploadStatus st1 uploadId = getUploadStatus st uploadId ∧
        getUploadStatus st1 uploadId = .ok
          { fileName := s.fileName
            fileSize := s.fileSize
            totalChunks := s.totalChunks
            uploadedChunks := s.uploadedChunks
            isComplete := decide (s.uploadedChunks.card = s.totalChunks) }) := by
  constructor
  · intro hn
    simp [cancelUpload, hn]
  · intro s hs hdir
    refine ⟨{ st with
        chunkFiles := st.chunkFiles.filter (fun e => !decide (e.1.1 = uploadId)) },
      ?_, ?_, rfl, rfl, rfl, ?_⟩
    · simp only [cancelUpload, hs]
      rw [cleanupChunks_mem st uploadId hdir]
    · intro i
      refine lookup_eq_none_of_forall_ne _ _ fun e he => ?_
      have := List.of_mem_filter he
      intro hk
      simp [hk] at this
    · simp only [getUploadStatus, hs]

/-- Witness for C10 (amended): cancelling the unknown id `"z"` and the
registered id `"s"` of `wPool`. -/
theorem c10_cancel_unknown_fails_known_throws_before_metadata_delete_witness :
    cancelUpload wPool "z" = (.error .sessionNotFound, wPool) ∧
    (cancelUpload wPool "s").1 = .error .eisdir ∧
    (cancelUpload wPool "s").2.chunkFiles.lookup ("s", 0) = none ∧
    (cancelUpload wPool "s").2.uploadSessions = wPool.uploadSessions := by
  have hz := (c10_cancel_unknown_fails_known_throws_before_metadata_delete wPool "z").1 rfl
  obtain ⟨st1, he, hn, hu, -, -, -⟩ :=
    (c10_cancel_unknown_fails_known_throws_before_metadata_delete wPool "s").2 wSession rfl
      (by decide)
  rw [he]
  exact ⟨hz, rfl, hn 0, hu⟩

/-- C4: resuming an existing v2 session fails with `SessionMismatch`
whenever any of `fileName`, `fileSize`, `totalChunks` or `storageMethod`
differs from the values recorded at creation (with no state change), and
otherwise succeeds, returning the session's received chunk indices
reconciled against the chunk store: an index is reported exactly when it
is in the registry's `uploadedChunks` or a chunk file for it exists, in
ascending order without duplicates. -/
theorem c4_resume_mismatch_fails_else_returns_coverage
    (st : ChunkState) (fileId : String) (u : ActiveUpload)
    (hu : st.activeUploads.lookup fileId = some u) :
    (∀ fn fs tc sm now,
      fn ≠ u.fileName ∨ fs ≠ u.fileSize ∨ tc ≠ u.totalChunks ∨ sm ≠ u.storageMethod →
      resumeChunkUpload st fn fs tc fileId sm now = (.error .sessionMismatch, st)) ∧
    (∀ now, ∃ l st1,
      resumeChunkUpload st u.fileName u.fileSize u.totalChunks fileId u.storageMethod now =
        (.ok l, st1) ∧
      (∀ i, i ∈ l ↔ i ∈ u.uploadedChunks ∨ (st.chunkFiles.lookup (fileId, i)).isSome) ∧
      l.Sorted (· ≤ ·) ∧ l.Nodup) := by
  constructor
  · intro fn fs tc sm now h
    have h2 : u.fileName ≠ fn ∨ u.fileSize ≠ fs ∨ u.totalChunks ≠ tc ∨
        u.storageMethod ≠ sm := by
      rcases h with h | h | h | h
      · exact Or.inl (Ne.symm h)
      · exact Or.inr (Or.inl (Ne.symm h))
      · exact Or.inr (Or.inr (Or.inl (Ne.symm h)))
      · exact Or.inr (Or.inr (Or.inr (Ne.symm h)))
    simp only [resumeChunkUpload, hu]
    rw [if_pos h2]
  · intro now
    have hlook : (updateEntry st.activeUploads fileId
        { u with lastUpdated := now }).lookup fileId = some { u with lastUpdated := now } :=
      lookup_updateEntry_self _ _ _ (by simp [hu])
    refine ⟨sortedDedup (u.uploadedChunks ++ chunkDirListing st.chunkFiles fileId),
      { st with activeUploads := updateEntry st.activeUploads fileId { u with lastUpdated := now } },
      ?_, ?_, ?_, ?_⟩
    · simp only [resumeChunkUpload, hu]
      rw [if_neg (by simp)]
      simp only [getUploadStatusV2, hlook, StatusResponse.chunks]
    · intro i
      rw [mem_sortedDedup, List.mem_append, mem_chunkDirListing]
    · exact sorted_sortedDedup _
    · exact nodup_sortedDedup _

/-- Witness for C4 on `wChunkSt`: a resume with the wrong `fileSize` is
rejected; the matching resume reports coverage of chunks 0 and 1. -/
theorem c4_resume_mismatch_fails_else_returns_coverage_witness :
    resumeChunkUpload wChunkSt "f.bin" 4 2 "s" .disk 200 = (.error .sessionMismatch, wChunkSt) ∧
    ∃ l st1,
      resumeChunkUpload wChunkSt "f.bin" 3 2 "s" .disk 200 = (.ok l, st1) ∧
      0 ∈ l ∧ 1 ∈ l := by
  obtain ⟨h1, h2⟩ := c4_resume_mismatch_fails_else_returns_coverage wChunkSt "s" wUpload rfl
  refine ⟨h1 "f.bin" 4 2 .disk 200 (Or.inr (Or.inl (by decide))), ?_⟩
  obtain ⟨l, st1, he, hm, -, -⟩ := h2 200
  exact ⟨l, st1, he, (hm 0).mpr (Or.inl (by decide)), (hm 1).mpr (Or.inl (by decide))⟩

/-! ### Behaviour of a single accepted chunk upload -/

theorem uploadChunk_ok (st : PoolState) (uploadId : String) (s : UploadSession) (k : Nat)
    (b : Bytes) (now : Nat) (hs : st.uploadSessions.lookup uploadId = some s)
    (hk : k < s.totalChunks) :
    uploadChunk st uploadId (k : Int) b now =
      (.ok (),
        { st with
          chunkFiles := writeKey st.chunkFiles (uploadId, k) b
          uploadSessions := updateEntry st.uploadSessions uploadId
            { s with uploadedChunks := insert k s.uploadedChunks, lastActivity := now } }) := by
  have hc : ¬((k : Int) < 0 ∨ (s.totalChunks : Int) ≤ (k : Int)) := by
    push_neg
    exact ⟨Int.natCast_nonneg k, by exact_mod_cast hk⟩
  simp only [uploadChunk, hs]
  rw [if_neg hc]
  simp

theorem uploadChunkV2_new_ok (st : ChunkState) (fileId : String) (u : ActiveUpload)
    (j tc : Nat) (c : Bytes) (m : Nat)
    (hu : st.activeUploads.lookup fileId = some u) (hl : u.locked = false) (hj : j < tc)
    (hnew : st.chunkFiles.lookup (fileId, j) = none) :
    uploadChunkV2 st fileId (j : Int) tc c m =
      (.ok false,
        { st with
          chunkFiles := writeKey st.chunkFiles (fileId, j) c
          activeUploads := updateEntry st.activeUploads fileId
            { u with
              uploadedChunks := sortedDedup (u.uploadedChunks ++ [j])
              lastUpdated := m } }) := by
  have hc : ¬((j : Int) < 0 ∨ (tc : Int) ≤ (j : Int)) := by
    push_neg
    exact ⟨Int.natCast_nonneg j, by exact_mod_cast hj⟩
  simp only [uploadChunkV2, hu, hl]
  rw [if_neg (by simp), if_neg hc]
  simp [hnew]

theorem uploadChunkV2_skip (st : ChunkState) (fileId : String) (u : ActiveUpload)
    (j tc : Nat) (c : Bytes) (m : Nat)
    (hu : st.activeUploads.lookup fileId = some u) (hl : u.locked = false) (hj : j < tc)
    (hsome : (st.chunkFiles.lookup (fileId, j)).isSome) :
    uploadChunkV2 st fileId (j : Int) tc c m = (.ok true, st) := by
  have hc : ¬((j : Int) < 0 ∨ (tc : Int) ≤ (j : Int)) := by
    push_neg
    exact ⟨Int.natCast_nonneg j, by exact_mod_cast hj⟩
  simp only [uploadChunkV2, hu, hl]
  rw [if_neg (by simp), if_neg hc]
  simp [hsome]

/-- A fresh v3 session with no received chunks. -/
def wEmptySession : UploadSession :=
  { fileName := "a.bin", fileSize := 4, totalChunks := 2, uploadedChunks := ∅,
    chunkSize := 2, lastActivity := 0 }

/-- A v3 pool holding only the fresh `wEmptySession` under id `"s"`. -/
def wEmptyPool : PoolState :=
  { uploadSessions := [("s", wEmptySession)], chunkFiles := [], uploadDirFiles := [],
    chunkDirs := ["s"] }

/-- A fresh resumable-v2 session with no received chunks. -/
def wEmptyUpload : ActiveUpload :=
  { fileName := "f.bin", fileSize := 3, totalChunks := 2, uploadedChunks := [],
    storageMethod := .disk, lastUpdated := 0, locked := false }

/-- A v2 state holding only the fresh `wEmptyUpload` under id `"s"`. -/
def wEmptyChunkSt : ChunkState :=
  { activeUploads := [("s", wEmptyUpload)], chunkFiles := [], finalFiles := [] }

/-- A legacy-service session that has not received any chunk yet. -/
def aUpload : ActiveUploadA :=
  { fileName := "g.bin", fileSize := 2, totalChunks := 2, uploadedChunks := [],
    storageMethod := .disk, lastUpdated := 0 }

/-- A legacy-service state holding `aUpload` under id `"s"`. -/
def aState : ChunkStateA :=
  { activeUploads := [("s", aUpload)], chunkFiles := [], finalFiles := [] }

/-- C3 counterexample: in the legacy v2 service, uploading chunk 0 twice
with the same bytes leaves `uploadedChunks` with TWO occurrences of the
index 0 (`upload.uploadedChunks.push(chunkIndex)` runs on every call), so
the received-chunk record does not contain exactly one occurrence. -/
theorem c3_counterexample_legacy_duplicate_push :
    ((uploadChunkA (uploadChunkA aState "s" 0 [7] 1).2 "s" 0 [7] 2).2.activeUploads.lookup
        "s").map (fun u => u.uploadedChunks) = some [0, 0] := by
  rfl

/-- C3 (amended): in the v3 service, a duplicate upload of the same
`(sessionId, index, bytes)` is idempotent — the second call returns the
very same state, the stored bytes are the uploaded bytes, and
`uploadedChunks` (a set) holds the index once; in the resumable v2
service the duplicate is skipped outright with no state change, and its
`uploadedChunks` array holds exactly one occurrence of the index.  The
legacy v2 service instead appends one occurrence per call. -/
theorem c3_amended_duplicate_upload_idempotent
    (st : PoolState) (uploadId : String) (s : UploadSession) (k : Nat) (b : Bytes) (now : Nat)
    (st2 : ChunkState) (fileId : String) (u : ActiveUpload) (j tc : Nat) (c : Bytes) (m m2 : Nat)
    (hs : st.uploadSessions.lookup uploadId = some s) (hk : k < s.totalChunks)
    (hu : st2.activeUploads.lookup fileId = some u) (hl : u.locked = false) (hj : j < tc)
    (hnew : st2.chunkFiles.lookup (fileId, j) = none) :
    (∃ st1, uploadChunk st uploadId (k : Int) b now = (.ok (), st1) ∧
      uploadChunk st1 uploadId (k : Int) b now = (.ok (), st1) ∧
      st1.chunkFiles.lookup (uploadId, k) = some b ∧
      ∃ s1, st1.uploadSessions.lookup uploadId = some s1 ∧
        s1.uploadedChunks = insert k s.uploadedChunks) ∧
    (∃ stA, uploadChunkV2 st2 fileId (j : Int) tc c m = (.ok false, stA) ∧
      uploadChunkV2 stA fileId (j : Int) tc c m2 = (.ok true, stA) ∧
      stA.chunkFiles.lookup (fileId, j) = some c ∧
      ∃ u1, stA.activeUploads.lookup fileId = some u1 ∧
        u1.uploadedChunks.count j = 1) := by
  constructor
  · have h1 := uploadChunk_ok st uploadId s k b now hs hk
    refine ⟨_, h1, ?_, lookup_writeKey_self _ _ _, ?_⟩
    · have h2 := uploadChunk_ok
        { st with
          chunkFiles := writeKey st.chunkFiles (uploadId, k) b
          uploadSessions := updateEntry st.uploadSessions uploadId
            { s with uploadedChunks := insert k s.uploadedChunks, lastActivity := now } }
        uploadId
        { s with uploadedChunks := insert k s.uploadedChunks, lastActivity := now } k b now
        (lookup_updateEntry_self _ _ _ (by simp [hs])) hk
      rw [h2]
      obtain ⟨fn, fsz, tcs, uc, csz, la⟩ := s
      simp only [writeKey_idem, updateEntry_updateEntry, Finset.insert_idem]
    · refine ⟨_, lookup_updateEntry_self _ _ _ (by simp [hs]), rfl⟩
  · have h1 := uploadChunkV2_new_ok st2 fileId u j tc c m hu hl hj hnew
    refine ⟨_, h1, ?_, lookup_writeKey_self _ _ _, ?_⟩
    · refine uploadChunkV2_skip _ fileId
        { u with uploadedChunks := sortedDedup (u.uploadedChunks ++ [j]), lastUpdated := m }
        j tc c m2 (lookup_updateEntry_self _ _ _ (by simp [hu])) hl hj ?_
      simp [lookup_writeKey_self]
    · refine ⟨_, lookup_updateEntry_self _ _ _ (by simp [hu]), ?_⟩
      exact List.count_eq_one_of_mem (nodup_sortedDedup _)
        ((mem_sortedDedup _ _).mpr (by simp))

/-- Witness for C3 (amended) on the fresh-session states: v3 upload of
chunk 0 twice, and resumable-v2 upload of chunk 0 twice on a state with
no stored chunk 0. -/
theorem c3_amended_duplicate_upload_idempotent_witness :
    (∃ st1, uploadChunk wEmptyPool "s" 0 [7] 5 = (.ok (), st1) ∧
      uploadChunk st1 "s" 0 [7] 5 = (.ok (), st1) ∧
      st1.chunkFiles.lookup ("s", 0) = some [7] ∧
      ∃ s1, st1.uploadSessions.lookup "s" = some s1 ∧
        s1.uploadedChunks = insert 0 wEmptySession.uploadedChunks) ∧
    (∃ stA, uploadChunkV2 wEmptyChunkSt "s" 0 2 [8] 5 = (.ok false, stA) ∧
      uploadChunkV2 stA "s" 0 2 [8] 6 = (.ok true, stA) ∧
      stA.chunkFiles.lookup ("s", 0) = some [8] ∧
      ∃ u1, stA.activeUploads.lookup "s" = some u1 ∧
        u1.uploadedChunks.count 0 = 1) :=
  c3_amended_duplicate_upload_idempotent wEmptyPool "s" wEmptySession 0 [7] 5
    wEmptyChunkSt "s" wEmptyUpload 0 2 [8] 5 6 rfl (by decide) rfl rfl (by decide) rfl

/-- C8 counterexample: the legacy v2 `uploadChunk`, cited by the claim,
performs no index validation at all: on a session with `totalChunks = 2`
it accepts index 5, stores the chunk and records the index, instead of
failing with `InvalidChunkIndex` and leaving state unchanged. -/
theorem c8_counterexample_legacy_accepts_out_of_range :
    (uploadChunkA aState "s" 5 [7] 1).1 = .ok () ∧
    (uploadChunkA aState "s" 5 [7] 1).2.chunkFiles.lookup ("s", 5) = some [7] ∧
    ((uploadChunkA aState "s" 5 [7] 1).2.activeUploads.lookup "s").map
      (fun u => u.uploadedChunks) = some [5] :=
  ⟨rfl, rfl, rfl⟩

/-- C8 (amended): the v3 service rejects a chunk index outside
`[0, session.totalChunks)` with `InvalidChunkIndex` and no state change,
and the resumable v2 service does the same for an index outside
`[0, totalChunks)` where `totalChunks` is its caller-supplied argument;
the legacy v2 service performs no index validation at all. -/
theorem c8_amended_out_of_range_index_rejected
    (st : PoolState) (uploadId : String) (s : UploadSession) (idx : Int) (b : Bytes) (now : Nat)
    (st2 : ChunkState) (fileId : String) (u : ActiveUpload) (idx2 : Int) (tc : Nat) (c : Bytes)
    (m : Nat)
    (hs : st.uploadSessions.lookup uploadId = some s)
    (hout : idx < 0 ∨ (s.totalChunks : Int) ≤ idx)
    (hu : st2.activeUploads.lookup fileId = some u) (hl : u.locked = false)
    (hout2 : idx2 < 0 ∨ (tc : Int) ≤ idx2) :
    uploadChunk st uploadId idx b now = (.error .invalidChunkIndex, st) ∧
    uploadChunkV2 st2 fileId idx2 tc c m = (.error .invalidChunkIndex, st2) := by
  constructor
  · simp only [uploadChunk, hs]
    rw [if_pos hout]
  · simp only [uploadChunkV2, hu, hl]
    rw [if_neg (by simp), if_pos hout2]

/-- Witness for C8 (amended): index 5 on two-chunk sessions is rejected
by v3 and by the resumable v2 service without touching state. -/
theorem c8_amended_out_of_range_index_rejected_witness :
    uploadChunk wPool "s" 5 [9] 7 = (.error .invalidChunkIndex, wPool) ∧
    uploadChunkV2 wChunkSt "s" 5 2 [9] 7 = (.error .invalidChunkIndex, wChunkSt) :=
  c8_amended_out_of_range_index_rejected wPool "s" wSession 5 [9] 7
    wChunkSt "s" wUpload 5 2 [9] 7 rfl (by decide) rfl rfl (by decide)

/-- Looking a key up in a filtered association list with distinct keys:
the entry survives exactly when the filter keeps it. -/
theorem lookup_filter_of_nodupKeys {α β : Type} [BEq α] [LawfulBEq α] [DecidableEq α]
    (l : List (α × β)) (p : α × β → Bool) (k : α)
    (hnd : (l.map Prod.fst).Nodup) :
    (l.filter p).lookup k =
      match l.lookup k with
      | some v => if p (k, v) then some v else none
      | none => none := by
  induction l with
  | nil => rfl
  | cons e rest ih =>
    obtain ⟨a, b⟩ := e
    simp only [List.map_cons, List.nodup_cons] at hnd
    by_cases hk : a = k
    · subst hk
      have hnone : ∀ m : List (α × β), (∀ x ∈ m, x ∈ rest) → m.lookup a = none := by
        intro m hm
        refine lookup_eq_none_of_forall_ne _ _ fun x hx hxa => ?_
        exact hnd.1 (hxa ▸ List.mem_map_of_mem Prod.fst (hm x hx))
      by_cases hp : p (a, b)
      · simp only [List.filter_cons, hp, if_pos, List.lookup, beq_self_eq_true]
      · simp only [List.filter_cons, hp, Bool.false_eq_true, if_false, List.lookup,
          beq_self_eq_true]
        exact hnone _ fun x hx => List.mem_of_mem_filter hx
    · have hbeq : (k == a) = false := by
        simp only [beq_eq_false_iff_ne, ne_eq]
        exact fun h => hk h.symm
      by_cases hp : p (a, b)
      · simp only [List.filter_cons, hp, if_pos, List.lookup, hbeq]
        exact ih hnd.2
      · simp only [List.filter_cons, hp, Bool.false_eq_true, if_false, List.lookup, hbeq]
        exact ih hnd.2

theorem lookup_some_mem {α β : Type} [BEq α] [LawfulBEq α]
    (l : List (α × β)) (k : α) (v : β) (h : l.lookup k = some v) : (k, v) ∈ l := by
  induction l with
  | nil => cases h
  | cons e rest ih =>
    obtain ⟨a, b⟩ := e
    by_cases hk : k = a
    · subst hk
      simp only [List.lookup, beq_self_eq_true] at h
      obtain rfl := Option.some.inj h
      exact List.mem_cons_self _ _
    · have hbe : (k == a) = false := by simp [beq_iff_eq]; exact hk
      simp only [List.lookup, hbe] at h
      exact List.mem_cons_of_mem _ (ih h)

theorem cleanupLoop_preserves (now : Nat) :
    ∀ (l : List (String × UploadSession)) (st : PoolState),
      (∀ e ∈ l, e.1 ∈ st.chunkDirs) →
      (cleanupLoop now l st).2.uploadSessions = st.uploadSessions ∧
      (cleanupLoop now l st).2.uploadDirFiles = st.uploadDirFiles := by
  intro l
  induction l with
  | nil => exact fun st _ => ⟨rfl, rfl⟩
  | cons e rest ih =>
    intro st h
    by_cases hexp : expiredSession now e.2
    · have hd : e.1 ∈ st.chunkDirs := h e (by simp)
      simp [cleanupLoop, hexp, cleanupChunks_mem st e.1 hd]
    · simpa [cleanupLoop, hexp] using ih st fun q hq => h q (by simp [hq])

theorem cleanupLoop_error_of_expired (now : Nat) :
    ∀ (l : List (String × UploadSession)) (st : PoolState),
      (∀ e ∈ l, e.1 ∈ st.chunkDirs) → (∃ e ∈ l, expiredSession now e.2) →
      (cleanupLoop now l st).1 = .error .eisdir := by
  intro l
  induction l with
  | nil =>
    rintro st - ⟨x, hx, -⟩
    cases hx
  | cons e rest ih =>
    rintro st h ⟨x, hx, hxe⟩
    by_cases hexp : expiredSession now e.2
    · have hd : e.1 ∈ st.chunkDirs := h e (by simp)
      simp [cleanupLoop, hexp, cleanupChunks_mem st e.1 hd]
    · rcases List.mem_cons.mp hx with rfl | hx2
      · exact absurd hxe hexp
      · simpa [cleanupLoop, hexp] using
          ih st (fun q hq => h q (by simp [hq])) ⟨x, hx2, hxe⟩

/-- C9 counterexample: the expired, unlocked v3 session of `wPool` (last
active at 100 ms, collector run at 90000000 ms, its chunk directory
present as for every `initiateUpload`-created session) is NOT purged: the
collector callback throws `EISDIR` inside `cleanupChunks` before
`uploadSessions.delete`, the session's metadata survives, and a
subsequent `getUploadStatus` still succeeds instead of failing with
`SessionNotFound`. -/
theorem c9_counterexample_v3_collector_never_deletes_metadata :
    expiredSession 90000000 wSession = true ∧
    (cleanupExpiredSessions wPool 90000000).1 = .error .eisdir ∧
    (cleanupExpiredSessions wPool 90000000).2.uploadSessions.lookup "s" = some wSession ∧
    ∃ r, getUploadStatus (cleanupExpiredSessions wPool 90000000).2 "s" = .ok r :=
  ⟨rfl, rfl, rfl, ⟨_, rfl⟩⟩

/-- C9 (amended): the resumable v2 collector purges exactly the sessions
that are both inactive beyond the threshold and unlocked — a registered
session survives iff it is locked or not yet abandoned, a purged session
loses its chunk files and a subsequent `getUploadStatus` reports it
missing, and a locked session is never deleted regardless of age.  The
v3 collector, however, never deletes any session's metadata: on its
first expired session `cleanupChunks` throws `EISDIR` (after deleting
only that session's chunk files), aborting the run before
`uploadSessions.delete`, so whenever every session's chunk directory
exists the session map is left unchanged, the run errors if any session
is expired, and `getUploadStatus` still succeeds afterwards. -/
theorem c9_gc_purges_exactly_abandoned_unlocked
    (st : ChunkState) (now : Nat) (fileId : String) (u : ActiveUpload)
    (st3 : PoolState) (uploadId : String) (s : UploadSession)
    (hnd : (st.activeUploads.map Prod.fst).Nodup)
    (hu : st.activeUploads.lookup fileId = some u)
    (hs : st3.uploadSessions.lookup uploadId = some s) :
    ((cleanupAbandonedUploads st now).activeUploads.lookup fileId =
      if u.locked = false ∧ abandonedThreshold < now - u.lastUpdated then none else some u) ∧
    (u.locked = false ∧ abandonedThreshold < now - u.lastUpdated →
      getUploadStatusV2 (cleanupAbandonedUploads st now) fileId = .absent ∧
      ∀ i, (cleanupAbandonedUploads st now).chunkFiles.lookup (fileId, i) = none) ∧
    (u.locked = true → (cleanupAbandonedUploads st now).activeUploads.lookup fileId = some u) ∧
    ((∀ e ∈ st3.uploadSessions, e.1 ∈ st3.chunkDirs) →
      (cleanupExpiredSessions st3 now).2.uploadSessions = st3.uploadSessions) ∧
    ((∀ e ∈ st3.uploadSessions, e.1 ∈ st3.chunkDirs) →
      sessionTimeout < now - s.lastActivity →
      (cleanupExpiredSessions st3 now).1 = .error .eisdir ∧
      ∃ r, getUploadStatus (cleanupExpiredSessions st3 now).2 uploadId = .ok r) := by
  have h1 : (cleanupAbandonedUploads st now).activeUploads.lookup fileId =
      if u.locked = false ∧ abandonedThreshold < now - u.lastUpdated then none else some u := by
    show (st.activeUploads.filter _).lookup fileId = _
    rw [lookup_filter_of_nodupKeys _ _ _ hnd, hu]
    by_cases hlk : u.locked
    · simp [hlk]
    · simp only [Bool.not_eq_true] at hlk
      by_cases hab : abandonedThreshold < now - u.lastUpdated
      · rw [if_pos ⟨hlk, hab⟩]
        simp [hlk, abandonedUpload, hab]
      · rw [if_neg (by intro hc; exact hab hc.2)]
        simp [hlk, abandonedUpload, hab]
  have h4 : (∀ e ∈ st3.uploadSessions, e.1 ∈ st3.chunkDirs) →
      (cleanupExpiredSessions st3 now).2.uploadSessions = st3.uploadSessions :=
    fun hd => (cleanupLoop_preserves now st3.uploadSessions st3 hd).1
  refine ⟨h1, ?_, ?_, h4, ?_⟩
  · rintro ⟨hlk, hab⟩
    have hgone : (cleanupAbandonedUploads st now).activeUploads.lookup fileId = none := by
      rw [h1, if_pos ⟨hlk, hab⟩]
    constructor
    · simp only [getUploadStatusV2, hgone]
    · intro i
      refine lookup_eq_none_of_forall_ne _ _ fun e he hei => ?_
      have hmem := List.mem_filter.mp he
      have hid : e.1.1 = fileId := by rw [hei]
      rw [hid, hu] at hmem
      have : u.locked = true ∨ abandonedUpload now u = false := by
        rcases Bool.or_eq_true_iff.mp hmem.2 with h | h
        · exact Or.inl h
        · exact Or.inr (by simpa using h)
      rcases this with h | h
      · rw [hlk] at h; cases h
      · rw [abandonedUpload, decide_eq_false_iff_not] at h
        exact h hab
  · intro hlk
    rw [h1, if_neg (by rintro ⟨h, -⟩; rw [hlk] at h; cases h)]
  · intro hd hex
    constructor
    · refine cleanupLoop_error_of_expired now st3.uploadSessions st3 hd ?_
      exact ⟨(uploadId, s), lookup_some_mem _ _ _ hs, by simpa [expiredSession] using hex⟩
    · have hsame := h4 hd
      refine ⟨UploadStatus.mk s.fileName s.fileSize s.totalChunks s.uploadedChunks (decide (s.uploadedChunks.card = s.totalChunks)), ?_⟩
      simp only [getUploadStatus, hsame, hs]

/-- Witness for C9 (amended): at time 90000000 ms the idle unlocked v2
session of `wChunkSt` (last active at 100 ms) is purged with its chunks,
the locked session of `wLockedSt` survives the collector, and the v3
collector run on `wPool` errors with the session map unchanged. -/
theorem c9_gc_purges_exactly_abandoned_unlocked_witness :
    (cleanupAbandonedUploads wChunkSt 90000000).activeUploads.lookup "s" = none ∧
    getUploadStatusV2 (cleanupAbandonedUploads wChunkSt 90000000) "s" = .absent ∧
    (cleanupAbandonedUploads wChunkSt 90000000).chunkFiles.lookup ("s", 0) = none ∧
    (cleanupAbandonedUploads wLockedSt 90000000).activeUploads.lookup "s" = some wLockedUpload ∧
    (cleanupExpiredSessions wPool 90000000).1 = .error .eisdir ∧
    (cleanupExpiredSessions wPool 90000000).2.uploadSessions = wPool.uploadSessions := by
  obtain ⟨h1, h2, -, h4, h5⟩ := c9_gc_purges_exactly_abandoned_unlocked
    wChunkSt 90000000 "s" wUpload wPool "s" wSession (by decide) rfl rfl
  obtain ⟨h2a, h2b⟩ := h2 ⟨rfl, by decide⟩
  obtain ⟨-, -, h3, -, -⟩ := c9_gc_purges_exactly_abandoned_unlocked
    wLockedSt 90000000 "s" wLockedUpload wPool "s" wSession (by decide) rfl rfl
  obtain ⟨he, -⟩ := h5 (by decide) (by decide)
  refine ⟨?_, h2a, h2b 0, h3 rfl, he, h4 (by decide)⟩
  rw [h1]
  rfl

/-! ### The chunk-reading fold of the v3 merge -/

theorem foldChunks_eq (st : PoolState) (uploadId : String) (is : List Nat) (acc : Bytes)
    (bs : Nat → Bytes) (h : ∀ i ∈ is, st.chunkFiles.lookup (uploadId, i) = some (bs i)) :
    (is.foldl
        (fun acc i => acc.bind fun v => (st.chunkFiles.lookup (uploadId, i)).map (v ++ ·))
        (some acc)) =
      some (acc ++ (is.map bs).flatten) := by
  induction is generalizing acc with
  | nil => simp
  | cons i rest ih =>
    have hi := h i (by simp)
    have hstep : ((some acc).bind fun v =>
        (st.chunkFiles.lookup (uploadId, i)).map (v ++ ·)) = some (acc ++ bs i) := by
      rw [hi]
      rfl
    rw [List.foldl_cons, hstep, ih (acc ++ bs i) fun j hj => h j (by simp [hj])]
    simp [List.append_assoc]

theorem readChunksInOrder_eq (st : PoolState) (uploadId : String) (n : Nat) (bs : Nat → Bytes)
    (h : ∀ i < n, st.chunkFiles.lookup (uploadId, i) = some (bs i)) :
    readChunksInOrder st uploadId n = some ((List.range n).map bs).flatten := by
  unfold readChunksInOrder
  rw [foldChunks_eq st uploadId (List.range n) [] bs fun i hi => h i (List.mem_range.mp hi)]
  simp

/-- The full-coverage path of v3 `completeUpload`: the index-ordered
artifact is written under the declared name, the session's chunk files
are deleted, and then `cleanupChunks` throws `EISDIR` on the chunk
directory, so the session metadata survives and the error propagates. -/
theorem completeUpload_full_writes_then_throws (st : PoolState) (uploadId : String)
    (s : UploadSession) (m : Bytes)
    (hs : st.uploadSessions.lookup uploadId = some s)
    (hcard : s.uploadedChunks.card = s.totalChunks)
    (hread : readChunksInOrder st uploadId s.totalChunks = some m)
    (hdir : uploadId ∈ st.chunkDirs) :
    completeUpload st uploadId =
      (.error .eisdir,
        { st with
          uploadDirFiles := writeKey st.uploadDirFiles s.fileName m
          chunkFiles := st.chunkFiles.filter (fun e => !decide (e.1.1 = uploadId)) }) := by
  simp only [completeUpload, hs]
  rw [if_neg (by simpa using hcard)]
  simp only [hread]
  have hd2 : uploadId ∈
      ({ st with uploadDirFiles := writeKey st.uploadDirFiles s.fileName m } : PoolState).chunkDirs :=
    hdir
  rw [cleanupChunks_mem _ uploadId hd2]

/-- The same path when the chunk directory happens to be absent (never
the case for a session created by `initiateUpload`): the call returns
the final path. -/
theorem completeUpload_full_no_dir (st : PoolState) (uploadId : String)
    (s : UploadSession) (m : Bytes)
    (hs : st.uploadSessions.lookup uploadId = some s)
    (hcard : s.uploadedChunks.card = s.totalChunks)
    (hread : readChunksInOrder st uploadId s.totalChunks = some m)
    (hdir : uploadId ∉ st.chunkDirs) :
    (completeUpload st uploadId).1 = .ok s.fileName := by
  simp only [completeUpload, hs]
  rw [if_neg (by simpa using hcard)]
  simp only [hread]
  have hd2 : uploadId ∉
      ({ st with uploadDirFiles := writeKey st.uploadDirFiles s.fileName m } : PoolState).chunkDirs :=
    hdir
  rw [cleanupChunks_not_mem _ uploadId hd2]

/-- The v2 session declared for four chunks of which only two arrived. -/
def w4Upload : ActiveUpload :=
  { fileName := "f.bin", fileSize := 8, totalChunks := 4, uploadedChunks := [0, 1],
    storageMethod := .disk, lastUpdated := 100, locked := false }

/-- A v2 state holding `w4Upload` under `"s"` with chunks 0 and 1 stored. -/
def w4St : ChunkState :=
  { activeUploads := [("s", w4Upload)],
    chunkFiles := [(("s", 0), [1]), (("s", 1), [2])],
    finalFiles := [] }

/-- A v3 session declared for two chunks of which only chunk 0 arrived. -/
def wIncompleteSession : UploadSession :=
  { fileName := "a.bin", fileSize := 4, totalChunks := 2, uploadedChunks := {0},
    chunkSize := 2, lastActivity := 100 }

/-- A v3 pool holding `wIncompleteSession` under `"s"` with chunk 0 stored. -/
def wIncompletePool : PoolState :=
  { uploadSessions := [("s", wIncompleteSession)],
    chunkFiles := [(("s", 0), [10, 11])],
    uploadDirFiles := [],
    chunkDirs := ["s"] }

/-- C1 counterexample: the resumable v2 `completeChunkUpload` compares the
stored chunk count with its caller-supplied `totalChunks` argument, not
with the session's declared value.  On a session declared with
`totalChunks = 4` that holds only chunks 0 and 1, `Complete` called with
`totalChunks = 2` succeeds and deletes the session, although the number
of received chunk indices (2) differs from the declared total (4) — so
`Complete` does not succeed only when the received count equals the
declared `totalChunks`, and a session missing chunks can be finalized
rather than failing with `IncompleteUpload`. -/
theorem c1_counterexample_complete_ignores_declared_total :
    (w4St.activeUploads.lookup "s").map (fun u => u.totalChunks) = some 4 ∧
    (chunkDirListing w4St.chunkFiles "s").length = 2 ∧
    (completeChunkUpload w4St "s" "f.bin" 2 none).1 = .ok "f.bin" ∧
    (completeChunkUpload w4St "s" "f.bin" 2 none).2.activeUploads.lookup "s" = none :=
  ⟨rfl, rfl, rfl, rfl⟩

/-- C1 (amended): in the v3 service, for a session whose registry set is
consistent with the chunk store, `Complete` fails with
`IncompleteUpload` if and only if the number of received chunk indices
differs from the session's declared `totalChunks`, and on that failure
the whole state (metadata and stored chunks) is unchanged, so the
session stays resumable.  When the counts match and the session's chunk
directory exists (as for every session created by `initiateUpload`), the
merge writes the complete index-ordered artifact under the declared
name, but the call then throws `EISDIR` inside `cleanupChunks` — the
session's metadata survives (its chunk files are deleted) and the
success return is never reached.  The resumable v2 service performs the
count check and unlocking rollback against its caller-supplied
`totalChunks` argument: called with the declared total and a differing
stored count it fails with `IncompleteUpload` leaving the state
unchanged. -/
theorem c1_amended_complete_iff_received_equals_declared
    (st : PoolState) (uploadId : String) (s : UploadSession)
    (st2 : ChunkState) (fileId : String) (u : ActiveUpload)
    (hs : st.uploadSessions.lookup uploadId = some s)
    (hsub : s.uploadedChunks ⊆ Finset.range s.totalChunks)
    (hwf : ∀ i ∈ s.uploadedChunks, (st.chunkFiles.lookup (uploadId, i)).isSome)
    (hu : st2.activeUploads.lookup fileId = some u) (hlk : u.locked = false) :
    ((completeUpload st uploadId).1 = .error .incompleteUpload ↔
      s.uploadedChunks.card ≠ s.totalChunks) ∧
    (s.uploadedChunks.card ≠ s.totalChunks →
      completeUpload st uploadId = (.error .incompleteUpload, st)) ∧
    (s.uploadedChunks.card = s.totalChunks → uploadId ∈ st.chunkDirs →
      ∃ m st1, readChunksInOrder st uploadId s.totalChunks = some m ∧
        completeUpload st uploadId = (.error .eisdir, st1) ∧
        st1.uploadDirFiles.lookup s.fileName = some m ∧
        st1.uploadSessions = st.uploadSessions ∧
        (∀ i, st1.chunkFiles.lookup (uploadId, i) = none)) ∧
    (∀ fn, (chunkDirListing st2.chunkFiles fileId).length ≠ u.totalChunks →
      completeChunkUpload st2 fileId fn u.totalChunks none = (.error .incompleteUpload, st2)) := by
  have hinc : s.uploadedChunks.card ≠ s.totalChunks →
      completeUpload st uploadId = (.error .incompleteUpload, st) := by
    intro hne
    simp only [completeUpload, hs]
    rw [if_pos hne]
  have hreadOf : s.uploadedChunks.card = s.totalChunks →
      readChunksInOrder st uploadId s.totalChunks =
        some ((List.range s.totalChunks).map
          fun i => (st.chunkFiles.lookup (uploadId, i)).getD []).flatten := by
    intro hcard
    have hset : s.uploadedChunks = Finset.range s.totalChunks :=
      Finset.eq_of_subset_of_card_le hsub (by rw [Finset.card_range, hcard])
    refine readChunksInOrder_eq st uploadId s.totalChunks _ fun i hi => ?_
    obtain ⟨v, hv⟩ := Option.isSome_iff_exists.mp
      (hwf i (hset ▸ Finset.mem_range.mpr hi))
    rw [hv]
    simp
  have hcompFail : s.uploadedChunks.card = s.totalChunks → uploadId ∈ st.chunkDirs →
      completeUpload st uploadId =
        (.error .eisdir,
          { st with
            uploadDirFiles := writeKey st.uploadDirFiles s.fileName
              ((List.range s.totalChunks).map
                fun i => (st.chunkFiles.lookup (uploadId, i)).getD []).flatten
            chunkFiles := st.chunkFiles.filter (fun e => !decide (e.1.1 = uploadId)) }) :=
    fun hcard hdir =>
      completeUpload_full_writes_then_throws st uploadId s _ hs hcard (hreadOf hcard) hdir
  have hcompOk : s.uploadedChunks.card = s.totalChunks → uploadId ∉ st.chunkDirs →
      (completeUpload st uploadId).1 = .ok s.fileName :=
    fun hcard hdir =>
      completeUpload_full_no_dir st uploadId s _ hs hcard (hreadOf hcard) hdir
  refine ⟨⟨?_, ?_⟩, hinc, ?_, ?_⟩
  · intro hres
    by_contra hne
    have hcard : s.uploadedChunks.card = s.totalChunks := hne
    by_cases hdir : uploadId ∈ st.chunkDirs
    · rw [hcompFail hcard hdir] at hres
      simp at hres
    · rw [hcompOk hcard hdir] at hres
      simp at hres
  · intro hne
    rw [hinc hne]
  · intro hcard hdir
    refine ⟨_, _, hreadOf hcard, hcompFail hcard hdir, lookup_writeKey_self _ _ _, rfl, ?_⟩
    intro i
    refine lookup_eq_none_of_forall_ne _ _ fun e he => ?_
    have := List.of_mem_filter he
    intro hk
    simp [hk] at this
  · intro fn hne
    simp only [completeChunkUpload, hu, hlk]
    rw [if_neg (by simp), if_pos hne]
    rw [updateEntry_updateEntry]
    obtain ⟨fnm, fsz, tc, uc, sm, lu, lk⟩ := u
    simp only at hlk
    subst hlk
    rw [updateEntry_lookup_eq _ _ _ hu]

/-- Witness for C1 (amended): the incomplete v3 session
`wIncompletePool` fails with `IncompleteUpload` and is left unchanged;
the honest v2 call on `w4St` with the declared total 4 fails with
`IncompleteUpload` and is left unchanged; the fully-uploaded v3 session
of `wPool` gets its artifact written but the call errors with `EISDIR`
and keeps the metadata. -/
theorem c1_amended_complete_iff_received_equals_declared_witness :
    completeUpload wIncompletePool "s" = (.error .incompleteUpload, wIncompletePool) ∧
    completeChunkUpload w4St "s" "f.bin" 4 none = (.error .incompleteUpload, w4St) ∧
    ∃ m st1, readChunksInOrder wPool "s" 2 = some m ∧
      completeUpload wPool "s" = (.error .eisdir, st1) ∧
      st1.uploadDirFiles.lookup "a.bin" = some m ∧
      st1.uploadSessions = wPool.uploadSessions := by
  obtain ⟨-, hinc, -, hv2⟩ := c1_amended_complete_iff_received_equals_declared
    wIncompletePool "s" wIncompleteSession w4St "s" w4Upload rfl (by decide) (by decide) rfl rfl
  obtain ⟨-, -, h3, -⟩ := c1_amended_complete_iff_received_equals_declared
    wPool "s" wSession w4St "s" w4Upload rfl (by decide) (by decide) rfl rfl
  obtain ⟨m, st1, hr, hc, hfile, hsess, -⟩ := h3 (by decide) (by decide)
  exact ⟨hinc (by decide), hv2 "f.bin" (by decide), m, st1, hr, hc, hfile, hsess⟩

/-! ### Behaviour of the streaming merge under an injected failure -/

theorem mergeRun_fail (chunks : List Bytes) :
    ∀ i j : Nat, j < chunks.length →
      mergeRun (some (i + j)) i chunks = ((chunks.take j).flatten, j, false) := by
  induction chunks with
  | nil =>
    intro i j hj
    simp at hj
  | cons b rest ih =>
    intro i j hj
    match j with
    | 0 =>
      simp [mergeRun]
    | j + 1 =>
      have hne : ¬((some (i + (j + 1)) : Option Nat) = some i) := by
        simp
      rw [show i + (j + 1) = (i + 1) + j by omega] at hne ⊢
      simp only [mergeRun, if_neg hne]
      rw [ih (i + 1) j (by simpa using hj)]
      simp [Nat.add_comm]

theorem mergeRun_no_fail (chunks : List Bytes) :
    ∀ i : Nat, mergeRun none i chunks = (chunks.flatten, chunks.length, true) := by
  induction chunks with
  | nil => intro i; simp [mergeRun]
  | cons b rest ih =>
    intro i
    simp only [mergeRun, if_neg (by simp : ¬(none = some i)), ih (i + 1)]
    simp

theorem length_filterMap_of_forall_isSome {α β : Type} (f : α → Option β) (l : List α)
    (h : ∀ a ∈ l, (f a).isSome) : (l.filterMap f).length = l.length := by
  induction l with
  | nil => rfl
  | cons a rest ih =>
    obtain ⟨b, hb⟩ := Option.isSome_iff_exists.mp (h a (by simp))
    simp [List.filterMap_cons, hb, ih fun x hx => h x (by simp [hx])]

theorem sortedChunkData_length (st : ChunkState) (fileId : String) :
    (sortedChunkData st fileId).length = (chunkDirListing st.chunkFiles fileId).length := by
  refine length_filterMap_of_forall_isSome _ _ fun i hi => ?_
  exact (mem_chunkDirListing _ _ _).mp hi

theorem lookup_filter_of_key_true {α β : Type} [BEq α] [LawfulBEq α]
    (l : List (α × β)) (p : α × β → Bool) (k : α) (hp : ∀ v, p (k, v) = true) :
    (l.filter p).lookup k = l.lookup k := by
  induction l with
  | nil => rfl
  | cons e rest ih =>
    obtain ⟨a, b⟩ := e
    by_cases hk : a = k
    · subst hk
      rw [List.filter_cons, if_pos (by simpa using hp b)]
      simp [List.lookup]
    · have hbeq : (k == a) = false := by
        simp only [beq_eq_false_iff_ne, ne_eq]
        exact fun h => hk h.symm
      by_cases hpb : p (a, b)
      · rw [List.filter_cons, if_pos (by simpa using hpb)]
        simp only [List.lookup, hbeq]
        exact ih
      · rw [List.filter_cons, if_neg (by simpa using hpb)]
        simp only [List.lookup, hbeq]
        exact ih

/-- C7 counterexample: on `wChunkSt` (a fully-uploaded two-chunk session)
a read failure while streaming the second chunk leaves the error
`MergeFailure`, but the first chunk's bytes are already sitting at
`uploads/f.bin` — the artifact's declared name, since the merge streams
directly into `fs.createWriteStream(finalPath)` with no temporary path —
and the session's `locked` flag has been reset to `false` by the catch
block, not left `true` as the claim requires. -/
theorem c7_counterexample_failed_merge_partial_output_and_unlocked :
    (completeChunkUpload wChunkSt "s" "f.bin" 2 (some 1)).1 = .error .mergeFailure ∧
    (completeChunkUpload wChunkSt "s" "f.bin" 2 (some 1)).2.finalFiles.lookup "f.bin" =
      some [1] ∧
    ((completeChunkUpload wChunkSt "s" "f.bin" 2 (some 1)).2.activeUploads.lookup "s").map
      ActiveUpload.locked = some false :=
  ⟨rfl, rfl, rfl⟩

/-- C7 (amended): an I/O failure while streaming chunk position `j`
during the resumable v2 `Complete` fails with `MergeFailure` and leaves
the session's metadata exactly as before the call — in particular
unlocked (`locked = false`), ready for a retry — and every not-yet-
consumed chunk (positions `≥ j` of the listing) still stored; but the
merge writes directly to the artifact's declared name, so the
concatenation of the chunks consumed before the failure is left exposed
at that name. -/
theorem c7_amended_failed_merge_unlocked_partial_at_declared_name
    (st : ChunkState) (fileId fn : String) (u : ActiveUpload) (j : Nat)
    (hu : st.activeUploads.lookup fileId = some u) (hl : u.locked = false)
    (hlen : (chunkDirListing st.chunkFiles fileId).length = u.totalChunks)
    (hj : j < u.totalChunks) :
    ∃ st1,
      completeChunkUpload st fileId fn u.totalChunks (some j) = (.error .mergeFailure, st1) ∧
      st1.activeUploads = st.activeUploads ∧
      st1.finalFiles.lookup fn = some ((sortedChunkData st fileId).take j).flatten ∧
      (∀ i, i ∈ (chunkDirListing st.chunkFiles fileId).drop j →
        st1.chunkFiles.lookup (fileId, i) = st.chunkFiles.lookup (fileId, i)) := by
  have hjlen : j < (sortedChunkData st fileId).length := by
    rw [sortedChunkData_length, hlen]
    exact hj
  have hrun : mergeRun (some j) 0 (sortedChunkData st fileId) =
      (((sortedChunkData st fileId).take j).flatten, j, false) := by
    have := mergeRun_fail (sortedChunkData st fileId) 0 j hjlen
    simpa using this
  have hres : completeChunkUpload st fileId fn u.totalChunks (some j) =
      (.error .mergeFailure,
        { activeUploads := updateEntry
            (updateEntry st.activeUploads fileId { u with locked := true }) fileId
            { u with locked := false }
          chunkFiles := st.chunkFiles.filter (fun e =>
            !decide (e.1.1 = fileId ∧
              e.1.2 ∈ (chunkDirListing st.chunkFiles fileId).take j))
          finalFiles := writeKey st.finalFiles fn
            ((sortedChunkData st fileId).take j).flatten }) := by
    simp only [completeChunkUpload, hu, hl]
    rw [if_neg (by simp), if_neg (by simp [hlen]), hrun]
    simp
  refine ⟨_, hres, ?_, lookup_writeKey_self _ _ _, ?_⟩
  · rw [updateEntry_updateEntry]
    obtain ⟨fnm, fsz, tc, uc, sm, lu, lk⟩ := u
    simp only at hl
    subst hl
    exact updateEntry_lookup_eq _ _ _ hu
  · intro i hi
    refine lookup_filter_of_key_true _ _ _ fun v => ?_
    simp only [Bool.not_eq_eq_eq_not, Bool.not_true, decide_eq_false_iff_not]
    rintro ⟨-, htake⟩
    have hnd := nodup_sortedDedup
      ((st.chunkFiles.filterMap fun c => if c.1.1 = fileId then some c.1.2 else none))
    have hdisj := List.disjoint_take_drop (l := chunkDirListing st.chunkFiles fileId)
      hnd (Nat.le_refl j)
    exact hdisj htake hi

/-- Witness for C7 (amended) on `wChunkSt` with a failure at position 1. -/
theorem c7_amended_failed_merge_unlocked_partial_at_declared_name_witness :
    ∃ st1,
      completeChunkUpload wChunkSt "s" "f.bin" 2 (some 1) = (.error .mergeFailure, st1) ∧
      st1.activeUploads = wChunkSt.activeUploads ∧
      st1.finalFiles.lookup "f.bin" = some ((sortedChunkData wChunkSt "s").take 1).flatten ∧
      (∀ i, i ∈ (chunkDirListing wChunkSt.chunkFiles "s").drop 1 →
        st1.chunkFiles.lookup ("s", i) = wChunkSt.chunkFiles.lookup ("s", i)) :=
  c7_amended_failed_merge_unlocked_partial_at_declared_name wChunkSt "s" "f.bin" wUpload 1
    rfl rfl (by decide) (by decide)

/-! ### Uploading a whole batch of chunks in any order (for C2) -/

/-- Run the v3 `uploadChunk` once per `(index, bytes)` pair, in the order
given by the list. -/
def runUploads (st : PoolState) (uploadId : String) (now : Nat)
    (l : List (Nat × Bytes)) : PoolState :=
  l.foldl (fun acc p => (uploadChunk acc uploadId (p.1 : Int) p.2 now).2) st

theorem runUploads_spec (uploadId : String) (now : Nat) :
    ∀ (l : List (Nat × Bytes)) (st : PoolState) (s : UploadSession),
      st.uploadSessions.lookup uploadId = some s →
      (∀ p ∈ l, p.1 < s.totalChunks) →
      (l.map Prod.fst).Nodup →
      ∃ s1, (runUploads st uploadId now l).uploadSessions.lookup uploadId = some s1 ∧
        s1.fileName = s.fileName ∧
        s1.totalChunks = s.totalChunks ∧
        s1.uploadedChunks = s.uploadedChunks ∪ (l.map Prod.fst).toFinset ∧
        (∀ i : Nat, (runUploads st uploadId now l).chunkFiles.lookup (uploadId, i) =
          match l.lookup i with
          | some b => some b
          | none => st.chunkFiles.lookup (uploadId, i)) ∧
        (runUploads st uploadId now l).uploadDirFiles = st.uploadDirFiles := by
  intro l
  induction l with
  | nil =>
    intro st s hs _ _
    exact ⟨s, hs, rfl, rfl, by simp, fun i => rfl, rfl⟩
  | cons p rest ih =>
    intro st s hs hbound hnd
    obtain ⟨k, b⟩ := p
    simp only [List.map_cons, List.nodup_cons] at hnd
    have hkbound : k < s.totalChunks := hbound (k, b) (by simp)
    have h1 := uploadChunk_ok st uploadId s k b now hs hkbound
    have hrw : runUploads st uploadId now ((k, b) :: rest) =
        runUploads (uploadChunk st uploadId (k : Int) b now).2 uploadId now rest := rfl
    rw [h1] at hrw
    obtain ⟨s1, hls, hfn, htc, huc, hcf, hud⟩ := ih
      { st with
        chunkFiles := writeKey st.chunkFiles (uploadId, k) b
        uploadSessions := updateEntry st.uploadSessions uploadId
          { s with uploadedChunks := insert k s.uploadedChunks, lastActivity := now } }
      { s with uploadedChunks := insert k s.uploadedChunks, lastActivity := now }
      (lookup_updateEntry_self _ _ _ (by simp [hs]))
      (fun q hq => hbound q (by simp [hq]))
      hnd.2
    rw [hrw]
    refine ⟨s1, hls, hfn, htc, ?_, ?_, ?_⟩
    · rw [huc]
      simp only [List.map_cons, List.toFinset_cons, Finset.insert_union, Finset.union_insert]
    · intro i
      have hci := hcf i
      by_cases hik : i = k
      · subst hik
        have hrest : rest.lookup i = none := by
          refine lookup_eq_none_of_forall_ne _ _ fun q hq hqi => ?_
          exact hnd.1 (hqi ▸ List.mem_map_of_mem Prod.fst hq)
        rw [hci, hrest]
        simp only [List.lookup, beq_self_eq_true]
      · have hskip : ((k, b) :: rest).lookup i = rest.lookup i := by
          simp [List.lookup, show (i == k) = false by simp [hik]]
        rw [hci, hskip]
        cases hres : rest.lookup i with
        | some v => rfl
        | none =>
          exact lookup_writeKey_ne _ _ _ _ (by simp [Prod.ext_iff, hik])
    · exact hud

theorem runUploads_chunkDirs (uploadId : String) (now : Nat) :
    ∀ (l : List (Nat × Bytes)) (st : PoolState),
      (runUploads st uploadId now l).chunkDirs = st.chunkDirs := by
  intro l
  induction l with
  | nil => intro st; rfl
  | cons p rest ih =>
    intro st
    show (runUploads (uploadChunk st uploadId (p.1 : Int) p.2 now).2 uploadId now rest).chunkDirs = _
    rw [ih]
    simp only [uploadChunk]
    split
    · rfl
    · split
      · rfl
      · rfl

/-! ### The `assembleFile` merge of src/unnamed/part_007 -/

/-- The slice of state touched by part_007's `FileUploadService`: flat
chunk files `<uploadId>.chunk.<i>` and metadata files `<uploadId>.json`
in `uploadBaseDir`, plus the assembled artifacts. -/
structure AssembleState where
  chunkFiles : List ((String × Nat) × Bytes)
  metaFiles : List String
  finalFiles : List (String × Bytes)
deriving DecidableEq

/-- `assembleFile(uploadId, metadata)` (part_007 lines 137-174).  The
synchronous body only SCHEDULES work: for each index `0 ..
totalChunks-1` it issues an asynchronous `fs.readFile(chunkPath,
'utf-8', cb)` and an asynchronous `fs.unlink(chunkPath, cb)`, then calls
`writeStream.end()` and unlinks the metadata file — all before any
callback has run.  Every read callback therefore executes its
`writeStream.write(data)` after the stream has ended, so the stream
rejects each write with a write-after-end error and none of the chunk
bytes reach the artifact: the file created at `finalPath` is finished
empty.  The unlink callbacks delete the chunk files (the model takes the
schedule in which each read completes before the unlink of its chunk; a
less favourable schedule only loses reads, never adds writes). -/
def assembleFile (st : AssembleState) (uploadId fileName : String) (totalChunks : Nat) :
    AssembleState :=
  { chunkFiles := st.chunkFiles.filter
      (fun e => !decide (e.1.1 = uploadId ∧ e.1.2 < totalChunks))
    metaFiles := st.metaFiles.filter (fun n => !decide (n = uploadId))
    finalFiles := writeKey st.finalFiles fileName [] }

/-- C2 counterexample: `assembleFile`, one of the three merges the claim
cites, does not append the stored chunks in ascending index order into
the artifact — no append ever lands, because the write stream is ended
before the first asynchronous read completes: with chunks `[1]` and
`[2]` stored for a two-chunk upload, the assembled artifact is `[]`,
not the concatenation `[1, 2]`. -/
theorem c2_counterexample_assemble_discards_all_appends :
    (assembleFile ⟨[(("s", 0), [1]), (("s", 1), [2])], ["s"], []⟩ "s" "g.bin"
      2).finalFiles.lookup "g.bin" = some [] ∧
    ([] : Bytes) ≠ [1] ++ [2] :=
  ⟨rfl, by decide⟩

/-- C2 (amended): for the two chunk-session services the claimed merge
order holds for every upload order: starting from a session with no
received chunks and uploading one chunk per index `0 .. totalChunks-1`
in ANY order, the artifact written under the declared name is the byte
concatenation of chunk 0, chunk 1, …, chunk `totalChunks-1` in ascending
index order — in v3 the artifact is written this way although the call
then throws `EISDIR` in chunk cleanup instead of returning success, and
in the resumable v2 service `Complete` returns success with the chunks
streamed in ascending listing order.  The `assembleFile` merge of
part_007 instead ends its write stream before any asynchronous chunk
read completes and so assembles an empty artifact. -/
theorem c2_merge_concatenates_chunks_in_index_order
    (st : PoolState) (uploadId : String) (s : UploadSession) (now : Nat)
    (l : List (Nat × Bytes)) (bs : Nat → Bytes)
    (st2 : ChunkState) (fileId fn : String) (u : ActiveUpload)
    (hs : st.uploadSessions.lookup uploadId = some s)
    (hempty : s.uploadedChunks = ∅)
    (hbound : ∀ p ∈ l, p.1 < s.totalChunks)
    (hnd : (l.map Prod.fst).Nodup)
    (hlen : l.length = s.totalChunks)
    (hl : ∀ i < s.totalChunks, l.lookup i = some (bs i))
    (hdir : uploadId ∈ st.chunkDirs)
    (hu : st2.activeUploads.lookup fileId = some u) (hlk : u.locked = false)
    (hcount : (chunkDirListing st2.chunkFiles fileId).length = u.totalChunks) :
    (∃ st1, completeUpload (runUploads st uploadId now l) uploadId = (.error .eisdir, st1) ∧
      st1.uploadDirFiles.lookup s.fileName =
        some ((List.range s.totalChunks).map bs).flatten) ∧
    (∃ st3, completeChunkUpload st2 fileId fn u.totalChunks none = (.ok fn, st3) ∧
      st3.finalFiles.lookup fn = some (sortedChunkData st2 fileId).flatten ∧
      (chunkDirListing st2.chunkFiles fileId).Sorted (· ≤ ·) ∧
      (chunkDirListing st2.chunkFiles fileId).Nodup) := by
  constructor
  · obtain ⟨s1, hls, hfn, htc, huc, hcf, hud⟩ := runUploads_spec uploadId now l st s hs hbound hnd
    have hkeys : (l.map Prod.fst).toFinset = Finset.range s.totalChunks := by
      refine Finset.eq_of_subset_of_card_le ?_ ?_
      · intro i hi
        obtain ⟨q, hq, hqi⟩ := List.mem_map.mp (List.mem_toFinset.mp hi)
        exact Finset.mem_range.mpr (hqi ▸ hbound q hq)
      · rw [Finset.card_range, List.toFinset_card_of_nodup hnd, List.length_map, hlen]
    have huc2 : s1.uploadedChunks = Finset.range s.totalChunks := by
      rw [huc, hempty, hkeys, Finset.empty_union]
    have hcard : s1.uploadedChunks.card = s1.totalChunks := by
      rw [huc2, Finset.card_range, htc]
    have hchunks : ∀ i < s1.totalChunks,
        (runUploads st uploadId now l).chunkFiles.lookup (uploadId, i) = some (bs i) := by
      intro i hi
      rw [htc] at hi
      rw [hcf i, hl i hi]
    have hread : readChunksInOrder (runUploads st uploadId now l) uploadId s1.totalChunks =
        some ((List.range s1.totalChunks).map bs).flatten :=
      readChunksInOrder_eq _ _ _ bs hchunks
    have hdirX : uploadId ∈ (runUploads st uploadId now l).chunkDirs := by
      rw [runUploads_chunkDirs]
      exact hdir
    have hcomp := completeUpload_full_writes_then_throws (runUploads st uploadId now l)
      uploadId s1 _ hls hcard hread hdirX
    refine ⟨_, hcomp, ?_⟩
    rw [← hfn, ← htc]
    exact lookup_writeKey_self _ _ _
  · refine ⟨ChunkState.mk (removeKey st2.activeUploads fileId)
        (st2.chunkFiles.filter (fun e => !decide (e.1.1 = fileId)))
        (writeKey st2.finalFiles fn (sortedChunkData st2 fileId).flatten),
      ?_, lookup_writeKey_self _ _ _, sorted_sortedDedup _, nodup_sortedDedup _⟩
    simp only [completeChunkUpload, hu, hlk]
    rw [if_neg (by simp), if_neg (by simp [hcount]), mergeRun_no_fail (sortedChunkData st2 fileId) 0]
    simp

/-- Witness for C2 (amended): the two chunks of `wEmptyPool`'s session
uploaded out of order (index 1 first, then index 0) end up written as
chunk 0 ++ chunk 1; the fully-uploaded `wChunkSt` finalizes in the
resumable v2 service with the ascending-order concatenation. -/
theorem c2_merge_concatenates_chunks_in_index_order_witness :
    (∃ st1, completeUpload (runUploads wEmptyPool "s" 7 [(1, [12, 13]), (0, [10, 11])]) "s" =
        (.error .eisdir, st1) ∧
      st1.uploadDirFiles.lookup "a.bin" =
        some ((List.range 2).map fun i => if i = 0 then [10, 11] else [12, 13]).flatten) ∧
    (∃ st3, completeChunkUpload wChunkSt "s" "f.bin" 2 none = (.ok "f.bin", st3) ∧
      st3.finalFiles.lookup "f.bin" = some (sortedChunkData wChunkSt "s").flatten ∧
      (chunkDirListing wChunkSt.chunkFiles "s").Sorted (· ≤ ·) ∧
      (chunkDirListing wChunkSt.chunkFiles "s").Nodup) :=
  c2_merge_concatenates_chunks_in_index_order wEmptyPool "s" wEmptySession 7
    [(1, [12, 13]), (0, [10, 11])] (fun i => if i = 0 then [10, 11] else [12, 13])
    wChunkSt "s" "f.bin" wUpload
    rfl rfl (by decide) (by decide) rfl (by decide) (by decide) rfl rfl (by decide)
